import Mathlib

/-!
# Verification of the LLMServer agent dispatch and tool-result normalization subsystem

A shallow embedding, in Lean 4, of the core of the `LLMServer` repository:

* `src/core/parse_tool.py` — the result normalizer (`_deserialize_tool_content`,
  `_loads_json_string`, `_strip_code_fences`, `_candidate_json_strings`,
  `_extract_span`) and the tool-call extractor (`parse_tool_from_messages`);
* `src/core/dep.py` — the dispatch graph (`fallback_node`, `route_decision`,
  `SessionInjectingToolNode.ainvoke`, `create_custom_agent`);
* `src/core/history_store.py` — the in-memory session history store;
* `src/api/routes/mcp_router.py` — `pick_last_ai_text` and the `/dispatch` endpoint;
* `src/schemas/mcp_router.py` — the caller-facing response schema.

Python values that flow through the normalizer (`None` / `str` / `dict` / `list` /
`bool` / `int`) are modelled by the inductive type `Json` below, with `Json.null`
playing Python's `None` (in Python the two notions coincide: `json.loads "null"`
returns `None`).  Machine floats are outside the model: JSON numbers are embedded
as integers.  All definitions are executable, and every modelled Python function
is total — exceptional control flow is made explicit with `Option`.
-/

namespace LLMServer

/-- A JSON value (= a JSON-shaped Python value).  `null` doubles as Python `None`;
numbers are integers (floats are outside the model); strings and object keys are
character lists so that the byte-level parsing code can be stated directly. -/
inductive Json where
  | null : Json
  | bool : Bool → Json
  | num : Int → Json
  | str : List Char → Json
  | arr : List Json → Json
  | obj : List (List Char × Json) → Json
deriving Repr

namespace Json

mutual
/-- Boolean equality on `Json` (the nested induction prevents `deriving DecidableEq`). -/
def beqJ : Json → Json → Bool
  | .null, .null => true
  | .bool a, .bool b => a == b
  | .num a, .num b => a == b
  | .str a, .str b => a == b
  | .arr a, .arr b => beqL a b
  | .obj a, .obj b => beqF a b
  | _, _ => false
/-- Elementwise `beqJ` on lists of values. -/
def beqL : List Json → List Json → Bool
  | [], [] => true
  | x :: xs, y :: ys => beqJ x y && beqL xs ys
  | _, _ => false
/-- Elementwise `beqJ` on object fields. -/
def beqF : List (List Char × Json) → List (List Char × Json) → Bool
  | [], [] => true
  | (k, v) :: xs, (k2, v2) :: ys => k == k2 && beqJ v v2 && beqF xs ys
  | _, _ => false
end

mutual
theorem beqJ_iff : ∀ a b : Json, beqJ a b = true ↔ a = b
  | .null, b => by cases b <;> simp [beqJ]
  | .bool a, b => by cases b <;> simp [beqJ]
  | .num a, b => by cases b <;> simp [beqJ]
  | .str a, b => by cases b <;> simp [beqJ]
  | .arr xs, b => by
      cases b <;> simp [beqJ]
      exact beqL_iff xs _
  | .obj xs, b => by
      cases b <;> simp [beqJ]
      exact beqF_iff xs _
theorem beqL_iff : ∀ a b : List Json, beqL a b = true ↔ a = b
  | [], b => by cases b <;> simp [beqL]
  | x :: xs, b => by
      cases b with
      | nil => simp [beqL]
      | cons y ys => simp [beqL, beqJ_iff x y, beqL_iff xs ys]
theorem beqF_iff : ∀ a b : List (List Char × Json), beqF a b = true ↔ a = b
  | [], b => by cases b <;> simp [beqF]
  | (k, v) :: xs, b => by
      cases b with
      | nil => simp [beqF]
      | cons y ys =>
          obtain ⟨k2, v2⟩ := y
          simp [beqF, beqJ_iff v v2, beqF_iff xs ys, and_assoc]
end

instance : DecidableEq Json := fun a b => decidable_of_iff (beqJ a b = true) (beqJ_iff a b)

end Json

/-! ## Characters and digits -/

/-- The `{` character (written by code to stay clear of string interpolation). -/
def obrace : Char := Char.ofNat 123
/-- The `}` character. -/
def cbrace : Char := Char.ofNat 125

/-- JSON insignificant whitespace (the characters Python's `json` scanner skips). -/
def jsonWs (c : Char) : Bool := c = ' ' || c = '\t' || c = '\n' || c = '\r'

/-- Drop leading JSON whitespace. -/
def wsDrop (cs : List Char) : List Char := cs.dropWhile jsonWs

/-- The backtick character. -/
def backquote : Char := Char.ofNat 96

/-- Python `str.strip` whitespace (the ASCII fragment). -/
def pyWs (c : Char) : Bool :=
  c = ' ' || c = '\t' || c = '\n' || c = '\r' || c = Char.ofNat 11 || c = Char.ofNat 12

/-- Python `str.strip()`: remove leading and trailing whitespace. -/
def pyStrip (cs : List Char) : List Char :=
  ((cs.dropWhile pyWs).reverse.dropWhile pyWs).reverse

/-- ASCII decimal digit test. -/
def isDigitCh (c : Char) : Bool := '0' ≤ c && c ≤ '9'

/-- The character for the decimal digit `d < 10`. -/
def digitCh (d : Nat) : Char := Char.ofNat (48 + d)

/-- Decimal digit characters of `n`, most significant first, in front of `acc`;
structural on a fuel bounded by `n` (a number has at most `n + 1` digits). -/
def decDigitsCore : Nat → Nat → List Char → List Char
  | 0, _, acc => acc
  | fuel + 1, n, acc =>
      if n < 10 then digitCh n :: acc
      else decDigitsCore fuel (n / 10) (digitCh (n % 10) :: acc)

/-- Decimal digit characters of `n`, most significant first. -/
def decDigits (n : Nat) : List Char := decDigitsCore (n + 1) n []

/-- The decimal rendering of an integer: optional sign, then digits
(the output of Python's `json.dumps` on an `int`). -/
def intChars (i : Int) : List Char :=
  if i < 0 then '-' :: decDigits i.natAbs else decDigits i.natAbs

/-- Lower-case hexadecimal digit character for `n < 16`. -/
def hexCh (n : Nat) : Char :=
  if n < 10 then Char.ofNat (48 + n) else Char.ofNat (87 + n)

/-! ## The JSON encoder

Models `json.dumps` with its default item/key separators (`", "` and `": "`),
restricted to the `Json` model above.  String escaping follows the `dumps`
escape table: `"`, `\`, the named control escapes, and `\u00XX` for the
remaining control characters; other characters are emitted literally. -/

/-- `json.dumps` escaping of a single string character. -/
def escCh (c : Char) : List Char :=
  if c = '"' then ['\\', '"']
  else if c = '\\' then ['\\', '\\']
  else if c = '\n' then ['\\', 'n']
  else if c = '\t' then ['\\', 't']
  else if c = '\r' then ['\\', 'r']
  else if c = Char.ofNat 8 then ['\\', 'b']
  else if c = Char.ofNat 12 then ['\\', 'f']
  else if c.toNat < 32 then ['\\', 'u', '0', '0', hexCh (c.toNat / 16), hexCh (c.toNat % 16)]
  else [c]

/-- A JSON string literal: quote, escaped characters, quote. -/
def strChars (s : List Char) : List Char := '"' :: ((s.map escCh).flatten ++ ['"'])

mutual
/-- The JSON encoding of a value (models `json.dumps` on the `Json` model). -/
def json_encode : Json → List Char
  | .null => "null".data
  | .bool true => "true".data
  | .bool false => "false".data
  | .num i => intChars i
  | .str s => strChars s
  | .arr [] => ['[', ']']
  | .arr (x :: xs) => '[' :: (encItems (x :: xs) ++ [']'])
  | .obj [] => [obrace, cbrace]
  | .obj (kv :: kvs) => obrace :: (encFields (kv :: kvs) ++ [cbrace])
/-- Array elements joined by `", "` (no surrounding brackets). -/
def encItems : List Json → List Char
  | [] => []
  | [x] => json_encode x
  | x :: y :: ys => json_encode x ++ ',' :: ' ' :: encItems (y :: ys)
/-- Object fields, each `key": "value`, joined by `", "` (no surrounding braces). -/
def encFields : List (List Char × Json) → List Char
  | [] => []
  | [(k, v)] => strChars k ++ ':' :: ' ' :: json_encode v
  | (k, v) :: kv :: kvs =>
      strChars k ++ ':' :: ' ' :: json_encode v ++ ',' :: ' ' :: encFields (kv :: kvs)
end

/-! ## The JSON parser

Models the acceptance behaviour of Python's `json.loads` on the `Json` model:
recursive descent over the character list, with a fuel argument making totality
manifest.  Faithful to `loads` on the fragment the repository exercises; the
deliberate model restrictions are: numbers are integers (no fraction/exponent
part — such inputs are rejected rather than parsed as floats), and `\uXXXX`
escapes denoting lone surrogates are rejected (Lean `Char` has no surrogates). -/

/-- Value of one hexadecimal digit character. -/
def hexValCh (c : Char) : Option Nat :=
  if '0' ≤ c && c ≤ '9' then some (c.toNat - 48)
  else if 'a' ≤ c && c ≤ 'f' then some (c.toNat - 87)
  else if 'A' ≤ c && c ≤ 'F' then some (c.toNat - 55)
  else none

/-- The named single-character escapes of JSON strings. -/
def escTable (e : Char) : Option Char :=
  if e = '"' then some '"'
  else if e = '\\' then some '\\'
  else if e = '/' then some '/'
  else if e = 'n' then some '\n'
  else if e = 't' then some '\t'
  else if e = 'r' then some '\r'
  else if e = 'b' then some (Char.ofNat 8)
  else if e = 'f' then some (Char.ofNat 12)
  else none

/-- Parse a JSON string body (after the opening quote) up to the closing quote.
Unescaped control characters are rejected (`loads` is strict by default). -/
def strBody : List Char → Option (List Char × List Char)
  | [] => none
  | c :: cs =>
    if c = '"' then some ([], cs)
    else if c = '\\' then
      match cs with
      | [] => none
      | e :: cs2 =>
        if e = 'u' then
          match cs2 with
          | h1 :: h2 :: h3 :: h4 :: cs3 =>
            match hexValCh h1, hexValCh h2, hexValCh h3, hexValCh h4 with
            | some a, some b, some c2, some d =>
              let n := ((a * 16 + b) * 16 + c2) * 16 + d
              if 55296 ≤ n ∧ n ≤ 57343 then none
              else (strBody cs3).map (fun p => (Char.ofNat n :: p.1, p.2))
            | _, _, _, _ => none
          | _ => none
        else
          match escTable e with
          | some ch => (strBody cs2).map (fun p => (ch :: p.1, p.2))
          | none => none
    else if c.toNat < 32 then none
    else (strBody cs).map (fun p => (c :: p.1, p.2))

/-- Split off the leading run of decimal digits. -/
def digitSpan (cs : List Char) : List Char × List Char :=
  (cs.takeWhile isDigitCh, cs.dropWhile isDigitCh)

/-- Numeric value of a digit run (most significant first). -/
def digitsVal (ds : List Char) : Nat := ds.foldl (fun a c => a * 10 + (c.toNat - 48)) 0

/-- Parse a nonempty run of decimal digits into a natural number. -/
def parseNat (cs : List Char) : Option (Nat × List Char) :=
  match digitSpan cs with
  | ([], _) => none
  | (ds, r) => some (digitsVal ds, r)

mutual
/-- Parse one JSON value (leading whitespace allowed), returning the remainder. -/
def jparse : Nat → List Char → Option (Json × List Char)
  | 0, _ => none
  | fuel + 1, cs =>
    match wsDrop cs with
    | [] => none
    | c :: r =>
      if c = 'n' then
        match r with
        | 'u' :: 'l' :: 'l' :: r2 => some (.null, r2)
        | _ => none
      else if c = 't' then
        match r with
        | 'r' :: 'u' :: 'e' :: r2 => some (.bool true, r2)
        | _ => none
      else if c = 'f' then
        match r with
        | 'a' :: 'l' :: 's' :: 'e' :: r2 => some (.bool false, r2)
        | _ => none
      else if c = '"' then (strBody r).map (fun p => (.str p.1, p.2))
      else if c = '[' then
        match wsDrop r with
        | [] => none
        | c2 :: r2 =>
          if c2 = ']' then some (.arr [], r2)
          else (jitems fuel (c2 :: r2)).map (fun p => (.arr p.1, p.2))
      else if c = obrace then
        match wsDrop r with
        | [] => none
        | c2 :: r2 =>
          if c2 = cbrace then some (.obj [], r2)
          else (jfields fuel (c2 :: r2)).map (fun p => (.obj p.1, p.2))
      else if c = '-' then (parseNat r).map (fun p => (.num (-(p.1 : Int)), p.2))
      else if isDigitCh c then (parseNat (c :: r)).map (fun p => (.num (p.1 : Int), p.2))
      else none
/-- Parse one-or-more comma-separated array elements and the closing `]`. -/
def jitems : Nat → List Char → Option (List Json × List Char)
  | 0, _ => none
  | fuel + 1, cs =>
    match jparse fuel cs with
    | none => none
    | some (v, r) =>
      match wsDrop r with
      | [] => none
      | c2 :: r2 =>
        if c2 = ',' then (jitems fuel r2).map (fun p => (v :: p.1, p.2))
        else if c2 = ']' then some ([v], r2)
        else none
/-- Parse one-or-more comma-separated `"key": value` fields and the closing brace. -/
def jfields : Nat → List Char → Option (List (List Char × Json) × List Char)
  | 0, _ => none
  | fuel + 1, cs =>
    match wsDrop cs with
    | [] => none
    | c :: r =>
      if c = '"' then
        match strBody r with
        | none => none
        | some (k, r1) =>
          match wsDrop r1 with
          | [] => none
          | c3 :: r2 =>
            if c3 = ':' then
              match jparse fuel r2 with
              | none => none
              | some (v, r3) =>
                match wsDrop r3 with
                | [] => none
                | c4 :: r4 =>
                  if c4 = ',' then (jfields fuel r4).map (fun p => ((k, v) :: p.1, p.2))
                  else if c4 = cbrace then some ([(k, v)], r4)
                  else none
            else none
      else none
end

/-- `json.loads` on the model: parse one value, allow only trailing whitespace,
reject anything else.  `none` is a parse error (a raised `JSONDecodeError`). -/
def json_loads (cs : List Char) : Option Json :=
  match jparse (cs.length + 1) cs with
  | some (v, r) => if wsDrop r = [] then some v else none
  | none => none

/-! ## Round-trip lemmas: digits and numbers -/

/-- A remainder that cannot extend a digit run: empty or headed by a non-digit. -/
def numStop : List Char → Bool
  | [] => true
  | c :: _ => !isDigitCh c

theorem digitCh_spec (d : Nat) (hd : d < 10) :
    isDigitCh (digitCh d) = true ∧ (digitCh d).toNat = 48 + d := by
  interval_cases d <;> exact ⟨by decide, by decide⟩

theorem decDigitsCore_adequate (n : Nat) : ∀ fuel acc, n < fuel →
    decDigitsCore fuel n acc = decDigits n ++ acc := by
  induction n using Nat.strongRecOn with
  | _ n ih =>
    intro fuel acc hf
    cases fuel with
    | zero => omega
    | succ f =>
        by_cases h : n < 10
        · rw [decDigitsCore, if_pos h, decDigits, decDigitsCore, if_pos h]
          rfl
        · rw [decDigitsCore, if_neg h, decDigits, decDigitsCore, if_neg h]
          rw [ih (n / 10) (by omega) f _ (by omega), ih (n / 10) (by omega) n _ (by omega)]
          simp

theorem decDigits_peel (n : Nat) :
    decDigits n = (if n < 10 then [] else decDigits (n / 10)) ++ [digitCh (n % 10)] := by
  by_cases h : n < 10
  · rw [decDigits, decDigitsCore, if_pos h, if_pos h, Nat.mod_eq_of_lt h]
    rfl
  · rw [decDigits, decDigitsCore, if_neg h, if_neg h]
    rw [decDigitsCore_adequate (n / 10) n _ (by omega)]

theorem decDigits_ne_nil (n : Nat) : decDigits n ≠ [] := by
  rw [decDigits_peel]; simp

theorem decDigits_all_digit (n : Nat) : ∀ c ∈ decDigits n, isDigitCh c = true := by
  induction n using Nat.strongRecOn with
  | _ n ih =>
    rw [decDigits_peel]
    intro c hc
    rcases List.mem_append.mp hc with h | h
    · by_cases h10 : n < 10
      · simp [h10] at h
      · exact ih (n / 10) (by omega) c (by simpa [h10] using h)
    · rw [List.mem_singleton] at h
      subst h
      exact (digitCh_spec _ (Nat.mod_lt _ (by omega))).1

theorem digitsVal_decDigits (n : Nat) : digitsVal (decDigits n) = n := by
  induction n using Nat.strongRecOn with
  | _ n ih =>
    rw [decDigits_peel, digitsVal, List.foldl_append]
    by_cases h : n < 10
    · simp only [if_pos h, List.foldl_nil, List.foldl_cons]
      rw [(digitCh_spec _ (Nat.mod_lt _ (by omega))).2]
      omega
    · simp only [if_neg h, List.foldl_cons, List.foldl_nil]
      have := ih (n / 10) (by omega)
      rw [digitsVal] at this
      rw [this, (digitCh_spec _ (Nat.mod_lt _ (by omega))).2]
      omega

theorem takeWhile_all_append {p : Char → Bool} (xs rest : List Char)
    (h : ∀ c ∈ xs, p c = true) : (xs ++ rest).takeWhile p = xs ++ rest.takeWhile p := by
  induction xs with
  | nil => simp
  | cons c t ih =>
      have hc : p c = true := h c (by simp)
      simp only [List.cons_append, List.takeWhile_cons, hc, if_pos]
      rw [ih (fun x hx => h x (by simp [hx]))]

theorem dropWhile_all_append {p : Char → Bool} (xs rest : List Char)
    (h : ∀ c ∈ xs, p c = true) : (xs ++ rest).dropWhile p = rest.dropWhile p := by
  induction xs with
  | nil => simp
  | cons c t ih =>
      have hc : p c = true := h c (by simp)
      simp only [List.cons_append, List.dropWhile_cons, hc, if_pos]
      exact ih (fun x hx => h x (by simp [hx]))

theorem takeWhile_numStop {rest : List Char} (h : numStop rest = true) :
    rest.takeWhile isDigitCh = [] := by
  cases rest with
  | nil => rfl
  | cons c t =>
      simp only [numStop, Bool.not_eq_true'] at h
      simp [List.takeWhile_cons, h]

theorem dropWhile_numStop {rest : List Char} (h : numStop rest = true) :
    rest.dropWhile isDigitCh = rest := by
  cases rest with
  | nil => rfl
  | cons c t =>
      simp only [numStop, Bool.not_eq_true'] at h
      simp [List.dropWhile_cons, h]

theorem parseNat_decDigits (n : Nat) (rest : List Char) (h : numStop rest = true) :
    parseNat (decDigits n ++ rest) = some (n, rest) := by
  have hspan : digitSpan (decDigits n ++ rest) = (decDigits n, rest) := by
    rw [digitSpan, takeWhile_all_append _ _ (decDigits_all_digit n),
        dropWhile_all_append _ _ (decDigits_all_digit n),
        takeWhile_numStop h, dropWhile_numStop h, List.append_nil]
  obtain ⟨c, t, hct⟩ : ∃ c t, decDigits n = c :: t := by
    cases hd : decDigits n with
    | nil => exact absurd hd (decDigits_ne_nil n)
    | cons c t => exact ⟨c, t, rfl⟩
  rw [parseNat, hspan, hct]
  have := digitsVal_decDigits n
  rw [hct] at this
  simp [this]

/-! ## Round-trip lemmas: strings -/

theorem hexValCh_hexCh (m : Nat) (h : m < 16) : hexValCh (hexCh m) = some m := by
  interval_cases m <;> decide

theorem strBody_esc (c : Char) (r : List Char) :
    strBody (escCh c ++ r) = (strBody r).map (fun p => (c :: p.1, p.2)) := by
  unfold escCh
  split_ifs with h1 h2 h3 h4 h5 h6 h7 h8
  · subst h1; conv_lhs => rw [List.cons_append, strBody.eq_def]
    simp [escTable]
  · subst h2; conv_lhs => rw [List.cons_append, strBody.eq_def]
    simp [escTable]
  · subst h3; conv_lhs => rw [List.cons_append, strBody.eq_def]
    simp [escTable]
  · subst h4; conv_lhs => rw [List.cons_append, strBody.eq_def]
    simp [escTable]
  · subst h5; conv_lhs => rw [List.cons_append, strBody.eq_def]
    simp [escTable]
  · subst h6; conv_lhs => rw [List.cons_append, strBody.eq_def]
    simp [escTable]
  · subst h7; conv_lhs => rw [List.cons_append, strBody.eq_def]
    simp [escTable]
  · show strBody ('\\' :: 'u' :: '0' :: '0' :: hexCh (c.toNat / 16) :: hexCh (c.toNat % 16) :: r)
        = (strBody r).map (fun p => (c :: p.1, p.2))
    have hq : hexValCh (hexCh (c.toNat / 16)) = some (c.toNat / 16) :=
      hexValCh_hexCh _ (by omega)
    have hm : hexValCh (hexCh (c.toNat % 16)) = some (c.toNat % 16) :=
      hexValCh_hexCh _ (by omega)
    have hzero : hexValCh '0' = some 0 := by decide
    have harith : ((0 * 16 + 0) * 16 + c.toNat / 16) * 16 + c.toNat % 16 = c.toNat := by omega
    have hsur : ¬(55296 ≤ ((0 * 16 + 0) * 16 + c.toNat / 16) * 16 + c.toNat % 16 ∧
        ((0 * 16 + 0) * 16 + c.toNat / 16) * 16 + c.toNat % 16 ≤ 57343) := by omega
    conv_lhs => rw [strBody.eq_def]
    simp only [hq, hm, hzero, reduceIte]
    simp only [hsur, if_false, harith, Char.ofNat_toNat]
    rw [if_neg (show ¬('\\' = '"') by decide),
      if_neg (show ¬(55296 ≤ c.toNat ∧ c.toNat ≤ 57343) by omega)]
  · have hns : ¬c.toNat < 32 := by assumption
    show strBody (c :: r) = (strBody r).map (fun p => (c :: p.1, p.2))
    conv_lhs => rw [strBody.eq_def]
    simp only [if_neg h1, if_neg h2, if_neg hns]

theorem strBody_flat (s : List Char) (rest : List Char) :
    strBody ((s.map escCh).flatten ++ '"' :: rest) = some (s, rest) := by
  induction s with
  | nil =>
      simp only [List.map_nil, List.flatten_nil, List.nil_append]
      conv_lhs => rw [strBody.eq_def]
      simp
  | cons c t ih =>
      rw [List.map_cons, List.flatten_cons, List.append_assoc, strBody_esc, ih]
      rfl

/-! ## Round-trip lemmas: character classes and heads -/

theorem digit_ne {c : Char} (h : isDigitCh c = true) {d : Char} (hd : isDigitCh d = false) :
    c ≠ d := fun e => by subst e; rw [h] at hd; exact Bool.noConfusion hd

theorem digit_not_ws {c : Char} (h : isDigitCh c = true) : jsonWs c = false := by
  simp only [jsonWs, Bool.or_eq_false_iff, decide_eq_false_iff_not]
  exact ⟨⟨⟨digit_ne h (by decide), digit_ne h (by decide)⟩, digit_ne h (by decide)⟩,
    digit_ne h (by decide)⟩

theorem digit_not_pyws {c : Char} (h : isDigitCh c = true) : pyWs c = false := by
  simp only [pyWs, Bool.or_eq_false_iff, decide_eq_false_iff_not]
  exact ⟨⟨⟨⟨⟨digit_ne h (by decide), digit_ne h (by decide)⟩, digit_ne h (by decide)⟩,
    digit_ne h (by decide)⟩, digit_ne h (by decide)⟩, digit_ne h (by decide)⟩

theorem wsDrop_cons_neg {c : Char} {cs : List Char} (h : jsonWs c = false) :
    wsDrop (c :: cs) = c :: cs := by
  simp [wsDrop, List.dropWhile_cons, h]

theorem json_encode_head (v : Json) :
    ∃ c t, json_encode v = c :: t ∧ jsonWs c = false ∧ c ≠ ']' ∧ c ≠ cbrace
      ∧ pyWs c = false ∧ c ≠ backquote := by
  cases v with
  | null => exact ⟨'n', _, rfl, by decide, by decide, by decide, by decide, by decide⟩
  | bool b => cases b with
      | true => exact ⟨'t', _, rfl, by decide, by decide, by decide, by decide, by decide⟩
      | false => exact ⟨'f', _, rfl, by decide, by decide, by decide, by decide, by decide⟩
  | str s => exact ⟨'"', _, rfl, by decide, by decide, by decide, by decide, by decide⟩
  | arr xs => cases xs with
      | nil => exact ⟨'[', _, rfl, by decide, by decide, by decide, by decide, by decide⟩
      | cons x xs => exact ⟨'[', _, rfl, by decide, by decide, by decide, by decide, by decide⟩
  | obj kvs => cases kvs with
      | nil => exact ⟨obrace, _, rfl, by decide, by decide, by decide, by decide, by decide⟩
      | cons kv kvs =>
          exact ⟨obrace, _, rfl, by decide, by decide, by decide, by decide, by decide⟩
  | num i =>
      by_cases hi : i < 0
      · refine ⟨'-', decDigits i.natAbs, ?_, by decide, by decide, by decide, by decide,
          by decide⟩
        simp [json_encode, intChars, hi]
      · obtain ⟨c, t, hct⟩ : ∃ c t, decDigits i.natAbs = c :: t := by
          cases hd : decDigits i.natAbs with
          | nil => exact absurd hd (decDigits_ne_nil _)
          | cons c t => exact ⟨c, t, rfl⟩
        have hc : isDigitCh c = true := decDigits_all_digit _ c (hct ▸ List.mem_cons_self _ _)
        refine ⟨c, t, ?_, digit_not_ws hc, digit_ne hc (by decide), digit_ne hc (by decide),
          digit_not_pyws hc, digit_ne hc (by decide)⟩
        simp [json_encode, intChars, hi, hct]

theorem wsDrop_enc (v : Json) (x : List Char) :
    wsDrop (json_encode v ++ x) = json_encode v ++ x := by
  obtain ⟨c, t, hct, hws, _, _, _, _⟩ := json_encode_head v
  rw [hct, List.cons_append, wsDrop_cons_neg hws]

theorem json_encode_ne_nil (v : Json) : json_encode v ≠ [] := by
  obtain ⟨c, t, hct, _, _, _, _, _⟩ := json_encode_head v
  simp [hct]

/-! ## Round-trip lemmas: parser steps -/

theorem jparse_succ (f : Nat) (cs : List Char) :
    jparse (f + 1) cs =
      match wsDrop cs with
      | [] => none
      | c :: r =>
        if c = 'n' then
          match r with
          | 'u' :: 'l' :: 'l' :: r2 => some (.null, r2)
          | _ => none
        else if c = 't' then
          match r with
          | 'r' :: 'u' :: 'e' :: r2 => some (.bool true, r2)
          | _ => none
        else if c = 'f' then
          match r with
          | 'a' :: 'l' :: 's' :: 'e' :: r2 => some (.bool false, r2)
          | _ => none
        else if c = '"' then (strBody r).map (fun p => (.str p.1, p.2))
        else if c = '[' then
          match wsDrop r with
          | [] => none
          | c2 :: r2 =>
            if c2 = ']' then some (.arr [], r2)
            else (jitems f (c2 :: r2)).map (fun p => (.arr p.1, p.2))
        else if c = obrace then
          match wsDrop r with
          | [] => none
          | c2 :: r2 =>
            if c2 = cbrace then some (.obj [], r2)
            else (jfields f (c2 :: r2)).map (fun p => (.obj p.1, p.2))
        else if c = '-' then (parseNat r).map (fun p => (.num (-(p.1 : Int)), p.2))
        else if isDigitCh c then (parseNat (c :: r)).map (fun p => (.num (p.1 : Int), p.2))
        else none := rfl

theorem jitems_succ (f : Nat) (cs : List Char) :
    jitems (f + 1) cs =
      match jparse f cs with
      | none => none
      | some (v, r) =>
        match wsDrop r with
        | [] => none
        | c2 :: r2 =>
          if c2 = ',' then (jitems f r2).map (fun p => (v :: p.1, p.2))
          else if c2 = ']' then some ([v], r2)
          else none := rfl

theorem jfields_succ (f : Nat) (cs : List Char) :
    jfields (f + 1) cs =
      match wsDrop cs with
      | [] => none
      | c :: r =>
        if c = '"' then
          match strBody r with
          | none => none
          | some (k, r1) =>
            match wsDrop r1 with
            | [] => none
            | c3 :: r2 =>
              if c3 = ':' then
                match jparse f r2 with
                | none => none
                | some (v, r3) =>
                  match wsDrop r3 with
                  | [] => none
                  | c4 :: r4 =>
                    if c4 = ',' then (jfields f r4).map (fun p => ((k, v) :: p.1, p.2))
                    else if c4 = cbrace then some ([(k, v)], r4)
                    else none
              else none
        else none := rfl

theorem wsDrop_ws_cons (cs : List Char) : wsDrop (' ' :: cs) = wsDrop cs := by
  simp [wsDrop, List.dropWhile_cons, show jsonWs ' ' = true from by decide]

theorem jparse_ws_cons (fuel : Nat) (cs : List Char) :
    jparse fuel (' ' :: cs) = jparse fuel cs := by
  cases fuel with
  | zero => rfl
  | succ f => rw [jparse_succ, jparse_succ, wsDrop_ws_cons]

theorem jitems_ws_cons (fuel : Nat) (cs : List Char) :
    jitems fuel (' ' :: cs) = jitems fuel cs := by
  cases fuel with
  | zero => rfl
  | succ f => rw [jitems_succ, jitems_succ, jparse_ws_cons]

theorem jfields_ws_cons (fuel : Nat) (cs : List Char) :
    jfields fuel (' ' :: cs) = jfields fuel cs := by
  cases fuel with
  | zero => rfl
  | succ f => rw [jfields_succ, jfields_succ, wsDrop_ws_cons]

theorem encItems_expose (x : Json) (xs : List Json) :
    ∃ t, encItems (x :: xs) = json_encode x ++ t := by
  cases xs with
  | nil => exact ⟨[], by simp [encItems]⟩
  | cons y ys => exact ⟨',' :: ' ' :: encItems (y :: ys), rfl⟩

theorem strChars_length (s : List Char) :
    (strChars s).length = (s.map escCh).flatten.length + 2 := by
  simp [strChars]

theorem numStop_cons {c : Char} (h : isDigitCh c = false) (rest : List Char) :
    numStop (c :: rest) = true := by simp [numStop, h]

theorem rt_null (f : Nat) (rest : List Char) :
    jparse (f + 1) (json_encode .null ++ rest) = some (.null, rest) := by
  show jparse (f + 1) ('n' :: 'u' :: 'l' :: 'l' :: rest) = some (.null, rest)
  rw [jparse_succ, wsDrop_cons_neg (by decide)]
  simp

theorem rt_bool (b : Bool) (f : Nat) (rest : List Char) :
    jparse (f + 1) (json_encode (.bool b) ++ rest) = some (.bool b, rest) := by
  cases b with
  | true =>
      show jparse (f + 1) ('t' :: 'r' :: 'u' :: 'e' :: rest) = some (.bool true, rest)
      rw [jparse_succ, wsDrop_cons_neg (by decide)]
      simp
  | false =>
      show jparse (f + 1) ('f' :: 'a' :: 'l' :: 's' :: 'e' :: rest) = some (.bool false, rest)
      rw [jparse_succ, wsDrop_cons_neg (by decide)]
      simp

theorem jparse_succ_cons (f : Nat) (c : Char) (r : List Char) (hws : jsonWs c = false) :
    jparse (f + 1) (c :: r) =
      (if c = 'n' then
        match r with
        | 'u' :: 'l' :: 'l' :: r2 => some (.null, r2)
        | _ => none
      else if c = 't' then
        match r with
        | 'r' :: 'u' :: 'e' :: r2 => some (.bool true, r2)
        | _ => none
      else if c = 'f' then
        match r with
        | 'a' :: 'l' :: 's' :: 'e' :: r2 => some (.bool false, r2)
        | _ => none
      else if c = '"' then (strBody r).map (fun p => (.str p.1, p.2))
      else if c = '[' then
        match wsDrop r with
        | [] => none
        | c2 :: r2 =>
          if c2 = ']' then some (.arr [], r2)
          else (jitems f (c2 :: r2)).map (fun p => (.arr p.1, p.2))
      else if c = obrace then
        match wsDrop r with
        | [] => none
        | c2 :: r2 =>
          if c2 = cbrace then some (.obj [], r2)
          else (jfields f (c2 :: r2)).map (fun p => (.obj p.1, p.2))
      else if c = '-' then (parseNat r).map (fun p => (.num (-(p.1 : Int)), p.2))
      else if isDigitCh c then (parseNat (c :: r)).map (fun p => (.num (p.1 : Int), p.2))
      else none) := by
  rw [jparse_succ, wsDrop_cons_neg hws]

theorem rt_num (i : Int) (f : Nat) (rest : List Char) (hr : numStop rest = true) :
    jparse (f + 1) (json_encode (.num i) ++ rest) = some (.num i, rest) := by
  show jparse (f + 1) (intChars i ++ rest) = some (.num i, rest)
  by_cases hi : i < 0
  · have h1 : intChars i ++ rest = '-' :: (decDigits i.natAbs ++ rest) := by
      simp [intChars, hi]
    rw [h1, jparse_succ_cons _ _ _ (by decide)]
    rw [if_neg (show ¬(('-' : Char) = 'n') by decide), if_neg (show ¬(('-' : Char) = 't') by decide),
        if_neg (show ¬(('-' : Char) = 'f') by decide), if_neg (show ¬(('-' : Char) = '"') by decide),
        if_neg (show ¬(('-' : Char) = '[') by decide), if_neg (show ¬(('-' : Char) = obrace) by decide),
        if_pos rfl]
    rw [parseNat_decDigits _ _ hr]
    simp only [Option.map_some']
    rw [Int.ofNat_natAbs_of_nonpos (le_of_lt hi), neg_neg]
  · obtain ⟨c, t, hct⟩ : ∃ c t, decDigits i.natAbs = c :: t := by
      cases hd : decDigits i.natAbs with
      | nil => exact absurd hd (decDigits_ne_nil _)
      | cons c t => exact ⟨c, t, rfl⟩
    have hc : isDigitCh c = true := decDigits_all_digit _ c (hct ▸ List.mem_cons_self _ _)
    have h1 : intChars i ++ rest = c :: (t ++ rest) := by
      simp [intChars, hi, hct]
    have e1 : c ≠ 'n' := digit_ne hc (by decide)
    have e2 : c ≠ 't' := digit_ne hc (by decide)
    have e3 : c ≠ 'f' := digit_ne hc (by decide)
    have e4 : c ≠ '"' := digit_ne hc (by decide)
    have e5 : c ≠ '[' := digit_ne hc (by decide)
    have e6 : c ≠ obrace := digit_ne hc (by decide)
    have e7 : c ≠ '-' := digit_ne hc (by decide)
    rw [h1, jparse_succ_cons _ _ _ (digit_not_ws hc)]
    rw [if_neg e1, if_neg e2, if_neg e3, if_neg e4, if_neg e5, if_neg e6, if_neg e7, if_pos hc]
    rw [← List.cons_append, ← hct, parseNat_decDigits _ _ hr]
    simp only [Option.map_some']
    have h2 : ((i.natAbs : Nat) : Int) = i := by
      rw [Int.natAbs_of_nonneg (le_of_not_lt hi)]
    rw [h2]

theorem rt_str (s : List Char) (f : Nat) (rest : List Char) :
    jparse (f + 1) (json_encode (.str s) ++ rest) = some (.str s, rest) := by
  have h1 : json_encode (.str s) ++ rest = '"' :: ((s.map escCh).flatten ++ '"' :: rest) := by
    show strChars s ++ rest = _
    simp [strChars]
  rw [h1, jparse_succ, wsDrop_cons_neg (by decide)]
  simp only [reduceIte]
  rw [strBody_flat]
  rfl

theorem jparse_succ_arr (f : Nat) (r : List Char) (c2 : Char) (r2 : List Char)
    (hw : wsDrop r = c2 :: r2) :
    jparse (f + 1) ('[' :: r) =
      (if c2 = ']' then some (.arr [], r2)
       else (jitems f (c2 :: r2)).map (fun p => (.arr p.1, p.2))) := by
  rw [jparse_succ_cons _ _ _ (by decide)]
  rw [if_neg (show ¬(('[' : Char) = 'n') by decide), if_neg (show ¬(('[' : Char) = 't') by decide),
      if_neg (show ¬(('[' : Char) = 'f') by decide), if_neg (show ¬(('[' : Char) = '"') by decide),
      if_pos rfl, hw]

theorem jparse_succ_obj (f : Nat) (r : List Char) (c2 : Char) (r2 : List Char)
    (hw : wsDrop r = c2 :: r2) :
    jparse (f + 1) (obrace :: r) =
      (if c2 = cbrace then some (.obj [], r2)
       else (jfields f (c2 :: r2)).map (fun p => (.obj p.1, p.2))) := by
  rw [jparse_succ_cons _ _ _ (by decide)]
  rw [if_neg (show ¬(obrace = 'n') by decide), if_neg (show ¬(obrace = 't') by decide),
      if_neg (show ¬(obrace = 'f') by decide), if_neg (show ¬(obrace = '"') by decide),
      if_neg (show ¬(obrace = '[') by decide), if_pos rfl, hw]

theorem jitems_succ_of (f : Nat) (cs : List Char) (v : Json) (r : List Char) (c2 : Char)
    (r2 : List Char) (hp : jparse f cs = some (v, r)) (hw : wsDrop r = c2 :: r2) :
    jitems (f + 1) cs =
      (if c2 = ',' then (jitems f r2).map (fun p => (v :: p.1, p.2))
       else if c2 = ']' then some ([v], r2)
       else none) := by
  have h1 : jitems (f + 1) cs =
      match wsDrop r with
      | [] => none
      | c3 :: r3 =>
        if c3 = ',' then (jitems f r3).map (fun p => (v :: p.1, p.2))
        else if c3 = ']' then some ([v], r3)
        else none := by
    rw [jitems_succ, hp]
  rw [h1, hw]

theorem jfields_succ_of (f : Nat) (cs : List Char) (k : List Char) (r r1 : List Char)
    (r2 : List Char) (v : Json) (r3 : List Char) (c4 : Char) (r4 : List Char)
    (h0 : wsDrop cs = '"' :: r) (h1 : strBody r = some (k, r1))
    (h2 : wsDrop r1 = ':' :: r2) (h3 : jparse f r2 = some (v, r3))
    (h4 : wsDrop r3 = c4 :: r4) :
    jfields (f + 1) cs =
      (if c4 = ',' then (jfields f r4).map (fun p => ((k, v) :: p.1, p.2))
       else if c4 = cbrace then some ([(k, v)], r4)
       else none) := by
  have e1 : jfields (f + 1) cs =
      match strBody r with
      | none => none
      | some (k5, r5) =>
        match wsDrop r5 with
        | [] => none
        | c6 :: r6 =>
          if c6 = ':' then
            match jparse f r6 with
            | none => none
            | some (v7, r7) =>
              match wsDrop r7 with
              | [] => none
              | c8 :: r8 =>
                if c8 = ',' then (jfields f r8).map (fun p => ((k5, v7) :: p.1, p.2))
                else if c8 = cbrace then some ([(k5, v7)], r8)
                else none
          else none := by
    rw [jfields_succ, h0]
    rfl
  have e2 : jfields (f + 1) cs =
      match wsDrop r1 with
      | [] => none
      | c6 :: r6 =>
        if c6 = ':' then
          match jparse f r6 with
          | none => none
          | some (v7, r7) =>
            match wsDrop r7 with
            | [] => none
            | c8 :: r8 =>
              if c8 = ',' then (jfields f r8).map (fun p => ((k, v7) :: p.1, p.2))
              else if c8 = cbrace then some ([(k, v7)], r8)
              else none
        else none := by
    rw [e1, h1]
  have e3 : jfields (f + 1) cs =
      match jparse f r2 with
      | none => none
      | some (v7, r7) =>
        match wsDrop r7 with
        | [] => none
        | c8 :: r8 =>
          if c8 = ',' then (jfields f r8).map (fun p => ((k, v7) :: p.1, p.2))
          else if c8 = cbrace then some ([(k, v7)], r8)
          else none := by
    rw [e2, h2]
    rfl
  have e4 : jfields (f + 1) cs =
      match wsDrop r3 with
      | [] => none
      | c8 :: r8 =>
        if c8 = ',' then (jfields f r8).map (fun p => ((k, v) :: p.1, p.2))
        else if c8 = cbrace then some ([(k, v)], r8)
        else none := by
    rw [e3, h3]
  rw [e4, h4]

theorem encFields_head (k : List Char) (v : Json) (kvs : List (List Char × Json)) :
    ∃ t2, encFields ((k, v) :: kvs) = '"' :: t2 := by
  cases kvs with
  | nil =>
      exact ⟨((k.map escCh).flatten ++ ['"']) ++ ':' :: ' ' :: json_encode v,
        by simp [encFields, strChars]⟩
  | cons kv2 kvs2 =>
      obtain ⟨k2, v2⟩ := kv2
      exact ⟨((k.map escCh).flatten ++ ['"'])
          ++ ':' :: ' ' :: (json_encode v ++ ',' :: ' ' :: encFields ((k2, v2) :: kvs2)),
        by simp [encFields, strChars]⟩

mutual
theorem rt_val : ∀ (v : Json) (fuel : Nat) (rest : List Char),
    (json_encode v).length < fuel → numStop rest = true →
    jparse fuel (json_encode v ++ rest) = some (v, rest)
  | .null, fuel, rest, hf, _ => by
      cases fuel with
      | zero => exact absurd hf (Nat.not_lt_zero _)
      | succ f => exact rt_null f rest
  | .bool b, fuel, rest, hf, _ => by
      cases fuel with
      | zero => exact absurd hf (Nat.not_lt_zero _)
      | succ f => exact rt_bool b f rest
  | .num i, fuel, rest, hf, hr => by
      cases fuel with
      | zero => exact absurd hf (Nat.not_lt_zero _)
      | succ f => exact rt_num i f rest hr
  | .str s, fuel, rest, hf, _ => by
      cases fuel with
      | zero => exact absurd hf (Nat.not_lt_zero _)
      | succ f => exact rt_str s f rest
  | .arr [], fuel, rest, hf, _ => by
      cases fuel with
      | zero => exact absurd hf (Nat.not_lt_zero _)
      | succ f =>
          have h1 : json_encode (.arr []) ++ rest = '[' :: (']' :: rest) := rfl
          rw [h1, jparse_succ_arr f (']' :: rest) ']' rest (wsDrop_cons_neg (by decide))]
          simp
  | .arr (x :: xs), fuel, rest, hf, _ => by
      cases fuel with
      | zero => exact absurd hf (Nat.not_lt_zero _)
      | succ f =>
          obtain ⟨t, ht⟩ := encItems_expose x xs
          obtain ⟨c, ct, hct, hws, hbr, _, _, _⟩ := json_encode_head x
          have harg : json_encode (.arr (x :: xs)) ++ rest
              = '[' :: (encItems (x :: xs) ++ ']' :: rest) := by
            show ('[' :: (encItems (x :: xs) ++ [']'])) ++ rest = _
            simp
          have hhead : encItems (x :: xs) ++ ']' :: rest = c :: (ct ++ (t ++ ']' :: rest)) := by
            rw [ht, hct]
            simp
          have hwd : wsDrop (encItems (x :: xs) ++ ']' :: rest)
              = c :: (ct ++ (t ++ ']' :: rest)) := by
            rw [hhead, wsDrop_cons_neg hws]
          have hlen : (encItems (x :: xs)).length + 1 < f := by
            have h2 : (json_encode (.arr (x :: xs))).length = (encItems (x :: xs)).length + 2 := by
              show ('[' :: (encItems (x :: xs) ++ [']'])).length = _
              simp
            omega
          rw [harg, jparse_succ_arr f _ c _ hwd, if_neg hbr, ← hhead,
            rt_items x xs f rest hlen]
          rfl
  | .obj [], fuel, rest, hf, _ => by
      cases fuel with
      | zero => exact absurd hf (Nat.not_lt_zero _)
      | succ f =>
          have h1 : json_encode (.obj []) ++ rest = obrace :: (cbrace :: rest) := rfl
          rw [h1, jparse_succ_obj f (cbrace :: rest) cbrace rest (wsDrop_cons_neg (by decide))]
          simp
  | .obj ((k, v) :: kvs), fuel, rest, hf, _ => by
      cases fuel with
      | zero => exact absurd hf (Nat.not_lt_zero _)
      | succ f =>
          obtain ⟨t2, ht2⟩ := encFields_head k v kvs
          have harg : json_encode (.obj ((k, v) :: kvs)) ++ rest
              = obrace :: (encFields ((k, v) :: kvs) ++ cbrace :: rest) := by
            show (obrace :: (encFields ((k, v) :: kvs) ++ [cbrace])) ++ rest = _
            simp
          have hhead : encFields ((k, v) :: kvs) ++ cbrace :: rest
              = '"' :: (t2 ++ cbrace :: rest) := by
            rw [ht2]
            simp
          have hwd : wsDrop (encFields ((k, v) :: kvs) ++ cbrace :: rest)
              = '"' :: (t2 ++ cbrace :: rest) := by
            rw [hhead, wsDrop_cons_neg (by decide)]
          have hlen : (encFields ((k, v) :: kvs)).length + 1 < f := by
            have h2 : (json_encode (.obj ((k, v) :: kvs))).length
                = (encFields ((k, v) :: kvs)).length + 2 := by
              show (obrace :: (encFields ((k, v) :: kvs) ++ [cbrace])).length = _
              simp
            omega
          rw [harg, jparse_succ_obj f _ '"' _ hwd,
            if_neg (show ¬(('"' : Char) = cbrace) by decide), ← hhead,
            rt_fields k v kvs f rest hlen]
          rfl
termination_by v _ _ _ _ => sizeOf v

theorem rt_items : ∀ (x : Json) (xs : List Json) (fuel : Nat) (rest : List Char),
    (encItems (x :: xs)).length + 1 < fuel →
    jitems fuel (encItems (x :: xs) ++ ']' :: rest) = some (x :: xs, rest)
  | x, [], fuel, rest, hf => by
      cases fuel with
      | zero => exact absurd hf (Nat.not_lt_zero _)
      | succ f =>
          have h1 : encItems [x] ++ ']' :: rest = json_encode x ++ ']' :: rest := by
            simp [encItems]
          have hlen : (json_encode x).length < f := by
            have h2 : (encItems [x]).length = (json_encode x).length := by simp [encItems]
            omega
          have hp : jparse f (encItems [x] ++ ']' :: rest) = some (x, ']' :: rest) := by
            rw [h1]
            exact rt_val x f (']' :: rest) hlen (numStop_cons (by decide) rest)
          rw [jitems_succ_of f _ x (']' :: rest) ']' rest hp (wsDrop_cons_neg (by decide))]
          simp
  | x, y :: ys, fuel, rest, hf => by
      cases fuel with
      | zero => exact absurd hf (Nat.not_lt_zero _)
      | succ f =>
          have h2 : (encItems (x :: y :: ys)).length
              = (json_encode x).length + 2 + (encItems (y :: ys)).length := by
            show (json_encode x ++ ',' :: ' ' :: encItems (y :: ys)).length = _
            simp
            omega
          have hlen1 : (json_encode x).length < f := by omega
          have hlen2 : (encItems (y :: ys)).length + 1 < f := by omega
          have h1 : encItems (x :: y :: ys) ++ ']' :: rest
              = json_encode x ++ (',' :: ' ' :: (encItems (y :: ys) ++ ']' :: rest)) := by
            show (json_encode x ++ ',' :: ' ' :: encItems (y :: ys)) ++ ']' :: rest = _
            simp
          have hp : jparse f (encItems (x :: y :: ys) ++ ']' :: rest)
              = some (x, ',' :: ' ' :: (encItems (y :: ys) ++ ']' :: rest)) := by
            rw [h1]
            exact rt_val x f _ hlen1 (numStop_cons (by decide) _)
          rw [jitems_succ_of f _ x _ ',' _ hp (wsDrop_cons_neg (by decide)),
            if_pos rfl, jitems_ws_cons, rt_items y ys f rest hlen2]
          rfl
termination_by x xs _ _ _ => sizeOf x + sizeOf xs

theorem rt_fields : ∀ (k : List Char) (v : Json) (kvs : List (List Char × Json))
    (fuel : Nat) (rest : List Char),
    (encFields ((k, v) :: kvs)).length + 1 < fuel →
    jfields fuel (encFields ((k, v) :: kvs) ++ cbrace :: rest) = some ((k, v) :: kvs, rest)
  | k, v, [], fuel, rest, hf => by
      cases fuel with
      | zero => exact absurd hf (Nat.not_lt_zero _)
      | succ f =>
          have h2 : (encFields [(k, v)]).length
              = (strChars k).length + 2 + (json_encode v).length := by
            show (strChars k ++ ':' :: ' ' :: json_encode v).length = _
            simp
            omega
          have hlen : (json_encode v).length < f := by
            have h3 := strChars_length k
            omega
          have h1 : encFields [(k, v)] ++ cbrace :: rest
              = '"' :: ((k.map escCh).flatten
                  ++ '"' :: (':' :: ' ' :: (json_encode v ++ cbrace :: rest))) := by
            show (strChars k ++ ':' :: ' ' :: json_encode v) ++ cbrace :: rest = _
            simp [strChars]
          have h0 : wsDrop (encFields [(k, v)] ++ cbrace :: rest)
              = '"' :: ((k.map escCh).flatten
                  ++ '"' :: (':' :: ' ' :: (json_encode v ++ cbrace :: rest))) := by
            rw [h1, wsDrop_cons_neg (by decide)]
          have hp : jparse f (' ' :: (json_encode v ++ cbrace :: rest))
              = some (v, cbrace :: rest) := by
            rw [jparse_ws_cons]
            exact rt_val v f _ hlen (numStop_cons (by decide) rest)
          rw [jfields_succ_of f _ k _ _ _ v _ cbrace rest h0 (strBody_flat k _)
            (wsDrop_cons_neg (by decide)) hp (wsDrop_cons_neg (by decide)),
            if_neg (show ¬(cbrace = ',') by decide), if_pos rfl]
  | k, v, (k2, v2) :: kvs, fuel, rest, hf => by
      cases fuel with
      | zero => exact absurd hf (Nat.not_lt_zero _)
      | succ f =>
          have h2 : (encFields ((k, v) :: (k2, v2) :: kvs)).length
              = (strChars k).length + 2 + (json_encode v).length + 2
                + (encFields ((k2, v2) :: kvs)).length := by
            show (strChars k ++ ':' :: ' ' :: json_encode v
                ++ ',' :: ' ' :: encFields ((k2, v2) :: kvs)).length = _
            simp
            omega
          have h3 := strChars_length k
          have hlen : (json_encode v).length < f := by omega
          have hlen2 : (encFields ((k2, v2) :: kvs)).length + 1 < f := by omega
          have h1 : encFields ((k, v) :: (k2, v2) :: kvs) ++ cbrace :: rest
              = '"' :: ((k.map escCh).flatten
                  ++ '"' :: (':' :: ' ' :: (json_encode v
                      ++ ',' :: ' ' :: (encFields ((k2, v2) :: kvs) ++ cbrace :: rest)))) := by
            show (strChars k ++ ':' :: ' ' :: json_encode v
                ++ ',' :: ' ' :: encFields ((k2, v2) :: kvs)) ++ cbrace :: rest = _
            simp [strChars]
          have h0 : wsDrop (encFields ((k, v) :: (k2, v2) :: kvs) ++ cbrace :: rest)
              = '"' :: ((k.map escCh).flatten
                  ++ '"' :: (':' :: ' ' :: (json_encode v
                      ++ ',' :: ' ' :: (encFields ((k2, v2) :: kvs) ++ cbrace :: rest)))) := by
            rw [h1, wsDrop_cons_neg (by decide)]
          have hp : jparse f (' ' :: (json_encode v
              ++ ',' :: ' ' :: (encFields ((k2, v2) :: kvs) ++ cbrace :: rest)))
              = some (v, ',' :: ' ' :: (encFields ((k2, v2) :: kvs) ++ cbrace :: rest)) := by
            rw [jparse_ws_cons]
            exact rt_val v f _ hlen (numStop_cons (by decide) _)
          rw [jfields_succ_of f _ k _ _ _ v _ ','
              (' ' :: (encFields ((k2, v2) :: kvs) ++ cbrace :: rest))
              h0 (strBody_flat k _) (wsDrop_cons_neg (by decide)) hp
              (wsDrop_cons_neg (by decide)),
            if_pos rfl, jfields_ws_cons, rt_fields k2 v2 kvs f rest hlen2]
          rfl
termination_by k v kvs _ _ _ => sizeOf v + sizeOf kvs
end

/-- Parsing inverts encoding: `json.loads (json.dumps v)` accepts and returns `v`. -/
theorem json_loads_encode (v : Json) : json_loads (json_encode v) = some v := by
  have hp : jparse ((json_encode v).length + 1) (json_encode v) = some (v, []) := by
    have h2 := rt_val v ((json_encode v).length + 1) [] (by omega) rfl
    rwa [List.append_nil] at h2
  unfold json_loads
  rw [hp]
  rfl

/-! ## The result normalizer (`src/core/parse_tool.py`)

`Json.null` plays Python `None` throughout: `_loads_json_string` returning
`Json.null` is Python's `return None` (both "no candidate parsed" and a parsed
JSON `null` — in Python the two are the same object). -/

/-- `str.startswith("```")` on a character list. -/
def startsFence (l : List Char) : Bool := l.take 3 = [backquote, backquote, backquote]

/-- Split at newline characters, keeping empty interior pieces; accumulator helper. -/
def splitNlAux : List Char → List Char → List (List Char)
  | [], acc => [acc.reverse]
  | c :: cs, acc =>
      if c = '\n' then acc.reverse :: splitNlAux cs [] else splitNlAux cs (c :: acc)

/-- Python `str.splitlines` (the `\n` fragment): a trailing newline yields no
trailing empty line, and the empty string has no lines. -/
def splitlines (l : List Char) : List (List Char) :=
  let ps := splitNlAux l []
  if ps.getLast? = some [] then ps.dropLast else ps

/-- `"\n".join(...)` on character lists. -/
def joinNl (ls : List (List Char)) : List Char := List.intercalate ['\n'] ls

/-- `_strip_code_fences` of `src/core/parse_tool.py`: strip; if the text starts
with a triple-backtick fence, drop a fenced first line and a fenced last line
and re-strip the joined remainder. -/
def _strip_code_fences (text : List Char) : List Char :=
  let stripped := pyStrip text
  if startsFence stripped then
    let ls := splitlines stripped
    let ls1 := match ls with
      | l0 :: rest => if startsFence l0 then rest else ls
      | [] => ls
    let ls2 := match ls1.getLast? with
      | some ll => if startsFence ll then ls1.dropLast else ls1
      | none => ls1
    pyStrip (joinNl ls2)
  else stripped

/-- `_extract_span`: the slice from the first `a` to the last `b` (inclusive),
or `None` when either is missing or the last `b` does not lie after the first `a`. -/
def _extract_span (text : List Char) (a b : Char) : Option (List Char) :=
  match text.findIdx? (· = a), text.reverse.findIdx? (· = b) with
  | some i, some rj =>
      let j := text.length - 1 - rj
      if j ≤ i then none else some ((text.drop i).take (j - i + 1))
  | _, _ => none

/-- `_candidate_json_strings`: the whole text, then the outermost brace span,
then the outermost bracket span. -/
def _candidate_json_strings (text : List Char) : List (List Char) :=
  [text] ++ (_extract_span text obrace cbrace).toList ++ (_extract_span text '[' ']').toList

/-- The candidate loop of `_loads_json_string`: skip empty candidates, return the
first successful `json.loads` (a parsed `null` is Python `None`), else `None`. -/
def tryCandidates : List (List Char) → Json
  | [] => .null
  | c :: cs =>
      if c = [] then tryCandidates cs
      else
        match json_loads c with
        | some v => v
        | none => tryCandidates cs

/-- `_loads_json_string` of `src/core/parse_tool.py`. -/
def _loads_json_string (raw : List Char) : Json :=
  if raw = [] then .null
  else tryCandidates (_candidate_json_strings (_strip_code_fences (pyStrip raw)))

/-- First value bound to key `k` in an object's field list (Python `dict` lookup;
reference dicts have unique keys). -/
def lookupKey : List (List Char × Json) → List Char → Option Json
  | [], _ => none
  | (k2, v) :: rest, k => if k2 = k then some v else lookupKey rest k

/-- Python `k in d` on an object's field list. -/
def hasKey (kvs : List (List Char × Json)) (k : List Char) : Bool :=
  (lookupKey kvs k).isSome

/-- `_looks_like_text_chunk`: a dict with a `type` key and a string `text` value. -/
def _looks_like_text_chunk : Json → Bool
  | .obj kvs =>
      hasKey kvs ("type".data) &&
        (match lookupKey kvs ("text".data) with
         | some (.str _) => true
         | _ => false)
  | _ => false

/-- `_looks_like_text_chunks`: a nonempty list whose members are all text chunks. -/
def _looks_like_text_chunks (l : List Json) : Bool :=
  !l.isEmpty && l.all _looks_like_text_chunk

/-- `str(part.get("text", ""))` for a text chunk (the checked cases make the
value a string, so `str(...)` is the identity). -/
def chunkText : Json → List Char
  | .obj kvs =>
      match lookupKey kvs ("text".data) with
      | some (.str s) => s
      | _ => []
  | _ => []

/-- Python `str(...)` of the scalar contents reaching the final branch of
`_deserialize_tool_content` (numbers print decimally, booleans as `True`/`False`). -/
def pyStrOf : Json → List Char
  | .num i => intChars i
  | .bool true => "True".data
  | .bool false => "False".data
  | .str s => s
  | .null => "None".data
  | _ => []

/-- `_deserialize_tool_content` of `src/core/parse_tool.py`: `None` passes
through; a text-chunk dict re-parses its `text`; other dicts pass through; a
list of text chunks re-parses the concatenation; a singleton list recurses; other
lists pass through; a string is parsed; remaining scalars are stringified and
parsed.  (Tuples/sets are outside the `Json` content model.) -/
def _deserialize_tool_content : Json → Json
  | .null => .null
  | .obj kvs =>
      if _looks_like_text_chunk (.obj kvs) then _loads_json_string (chunkText (.obj kvs))
      else .obj kvs
  | .arr xs =>
      if _looks_like_text_chunks xs then _loads_json_string ((xs.map chunkText).flatten)
      else
        match xs with
        | [x] => _deserialize_tool_content x
        | _ => .arr xs
  | .str s => _loads_json_string s
  | .num i => _loads_json_string (pyStrOf (.num i))
  | .bool b => _loads_json_string (pyStrOf (.bool b))

/-! ## The normalizer round trip and the garbage fallback -/

theorem json_encode_last (v : Json) :
    ∃ c, (json_encode v).getLast? = some c ∧ pyWs c = false := by
  cases v with
  | null => exact ⟨'l', rfl, by decide⟩
  | bool b => cases b with
      | true => exact ⟨'e', rfl, by decide⟩
      | false => exact ⟨'e', rfl, by decide⟩
  | str s =>
      refine ⟨'"', ?_, by decide⟩
      show (('"' :: (s.map escCh).flatten) ++ ['"']).getLast? = some '"'
      exact List.getLast?_concat _
  | arr xs => cases xs with
      | nil => exact ⟨']', rfl, by decide⟩
      | cons x xs =>
          refine ⟨']', ?_, by decide⟩
          show (('[' :: encItems (x :: xs)) ++ [']']).getLast? = some ']'
          exact List.getLast?_concat _
  | obj kvs => cases kvs with
      | nil => exact ⟨cbrace, rfl, by decide⟩
      | cons kv kvs =>
          refine ⟨cbrace, ?_, by decide⟩
          show ((obrace :: encFields (kv :: kvs)) ++ [cbrace]).getLast? = some cbrace
          exact List.getLast?_concat _
  | num i =>
      have hd : isDigitCh (digitCh (i.natAbs % 10)) = true :=
        (digitCh_spec _ (Nat.mod_lt _ (by omega))).1
      by_cases hi : i < 0
      · refine ⟨digitCh (i.natAbs % 10), ?_, digit_not_pyws hd⟩
        show (intChars i).getLast? = _
        rw [intChars, if_pos hi, decDigits_peel]
        rw [show ('-' :: ((if i.natAbs < 10 then [] else decDigits (i.natAbs / 10))
            ++ [digitCh (i.natAbs % 10)]))
          = ('-' :: (if i.natAbs < 10 then [] else decDigits (i.natAbs / 10)))
            ++ [digitCh (i.natAbs % 10)] from rfl]
        exact List.getLast?_concat _
      · refine ⟨digitCh (i.natAbs % 10), ?_, digit_not_pyws hd⟩
        show (intChars i).getLast? = _
        rw [intChars, if_neg hi, decDigits_peel]
        exact List.getLast?_concat _

theorem pyStrip_noop {cs : List Char} (h1 : cs.dropWhile pyWs = cs)
    (h2 : cs.reverse.dropWhile pyWs = cs.reverse) : pyStrip cs = cs := by
  rw [pyStrip, h1, h2, List.reverse_reverse]

theorem pyStrip_enc (v : Json) : pyStrip (json_encode v) = json_encode v := by
  obtain ⟨c, t, hct, _, _, _, hpw, _⟩ := json_encode_head v
  obtain ⟨lc, hlc, hlpw⟩ := json_encode_last v
  have hne := json_encode_ne_nil v
  have hsplit : (json_encode v).dropLast ++ [(json_encode v).getLast hne] = json_encode v :=
    List.dropLast_append_getLast hne
  have hlc2 : (json_encode v).getLast hne = lc := by
    rw [List.getLast?_eq_getLast (json_encode v) hne] at hlc
    exact Option.some.inj hlc
  have h1 : (json_encode v).dropWhile pyWs = json_encode v := by
    rw [hct]
    simp [List.dropWhile_cons, hpw]
  have h2 : (json_encode v).reverse.dropWhile pyWs = (json_encode v).reverse := by
    rw [← hsplit, hlc2, List.reverse_append]
    simp [List.dropWhile_cons, hlpw]
  exact pyStrip_noop h1 h2

theorem startsFence_enc (v : Json) : startsFence (json_encode v) = false := by
  obtain ⟨c, t, hct, _, _, _, _, hbq⟩ := json_encode_head v
  rw [hct]
  unfold startsFence
  rw [show (c :: t).take 3 = c :: t.take 2 from rfl]
  simp [hbq]

theorem strip_code_fences_enc (v : Json) : _strip_code_fences (json_encode v) = json_encode v := by
  unfold _strip_code_fences
  rw [pyStrip_enc]
  rw [if_neg (by rw [startsFence_enc]; exact Bool.false_ne_true)]

theorem loads_json_string_encode (v : Json) : _loads_json_string (json_encode v) = v := by
  rw [_loads_json_string, if_neg (json_encode_ne_nil v), pyStrip_enc, strip_code_fences_enc,
    _candidate_json_strings]
  simp [tryCandidates, json_encode_ne_nil v, json_loads_encode v]

theorem tryCandidates_null {l : List (List Char)}
    (h : ∀ cnd ∈ l, json_loads cnd = none) : tryCandidates l = Json.null := by
  induction l with
  | nil => rfl
  | cons c cs ih =>
      rw [tryCandidates]
      by_cases hc : c = []
      · rw [if_pos hc]
        exact ih (fun x hx => h x (by simp [hx]))
      · rw [if_neg hc, h c (by simp)]
        exact ih (fun x hx => h x (by simp [hx]))

/-! ## Conversation turns and the tool-call extractor (`src/core/parse_tool.py`)

A turn (`langchain` message) is modelled by its `type` (role), `content`
(a JSON-shaped Python value), `tool_calls`, `tool_call_id` and `name`
attributes — the attributes the extractor, injector, dispatch graph and
history store inspect.  Tool-call dicts are modelled in the canonical shape
the graph produces (`id` / `name` / `args` keys; absent values are `none`). -/

/-- The lowercased `type` of a message: `system`, `human`, `ai` or `tool`. -/
inductive Role where
  | system : Role
  | human : Role
  | ai : Role
  | tool : Role
deriving DecidableEq, Repr

/-- A tool-invocation request attached to an assistant turn. -/
structure ToolCall where
  id : Option String := none
  name : Option String := none
  args : Option Json := none
deriving DecidableEq, Repr

/-- One conversation turn. -/
structure Msg where
  role : Role
  content : Json := Json.null
  tool_calls : List ToolCall := []
  tool_call_id : Option String := none
  name : Option String := none
deriving DecidableEq, Repr

/-- Python truthiness of an optional string (`None` and `""` are falsy). -/
def truthy : Option String → Bool
  | some s => s ≠ ""
  | none => false

/-- The mutable `tool_metadata` dict of `parse_tool_from_messages`: each field is
`none` when its key is absent.  `tool_name`'s value is itself optional because
the tool branch stores `getattr(message, "name", ...)`, which may be `None`. -/
structure ToolMeta where
  tool_response_content : Option Json := none
  tool_name : Option (Option String) := none
  tool_args : Option Json := none
  tool_call_id : Option String := none
deriving DecidableEq, Repr

/-- The empty `tool_metadata` dict. -/
def emptyMeta : ToolMeta := {}

/-- `_get_tool_call_args`: decode a string-valued `args` blob, keeping the raw
string when the decode yields nothing. -/
def _get_tool_call_args (call : ToolCall) : Option Json :=
  match call.args with
  | some (Json.str s) =>
      let parsed := _loads_json_string s
      if parsed ≠ Json.null then some parsed else some (Json.str s)
  | a => a

/-- The tool-branch content normalization of `parse_tool_from_messages`
(lines 31–35): the deserialized content when it is not `None`, else the raw
content. -/
def toolContentFallback (content : Json) : Json :=
  let parsed := _deserialize_tool_content content
  if parsed ≠ Json.null then parsed else content

/-- The inner `for tool_call in reversed(tool_calls)` loop of the `ai` branch:
skip calls whose id mismatches the pairing key, capture name/args/id from the
first remaining call, then stop. -/
def scanCalls (meta : ToolMeta) (lastId : Option String) : List ToolCall → ToolMeta
  | [] => meta
  | c :: cs =>
      if truthy lastId ∧ truthy c.id ∧ c.id ≠ lastId then scanCalls meta lastId cs
      else
        let m1 := if truthy c.name ∧ meta.tool_name = none
          then { meta with tool_name := some c.name } else meta
        let m2 := match _get_tool_call_args c with
          | some a => { m1 with tool_args := some a }
          | none => m1
        if truthy c.id ∧ m2.tool_call_id = none
          then { m2 with tool_call_id := c.id } else m2

/-- The `for message in reversed(messages)` loop of `parse_tool_from_messages`,
given the already-reversed turn list. -/
def parseLoop : List Msg → ToolMeta → Option String → ToolMeta
  | [], meta, _ => meta
  | m :: rest, meta, lastId =>
      if m.role = .tool ∧ meta.tool_response_content = none then
        parseLoop rest
          { meta with
            tool_response_content := some (toolContentFallback m.content),
            tool_name := some m.name }
          m.tool_call_id
      else if m.role = .ai then
        parseLoop rest (scanCalls meta lastId m.tool_calls.reverse) lastId
      else if m.role = .human ∧ meta ≠ emptyMeta then meta
      else parseLoop rest meta lastId

/-- `parse_tool_from_messages` of `src/core/parse_tool.py`. -/
def parse_tool_from_messages (messages : List Msg) : Option ToolMeta :=
  if messages = [] then none
  else
    let meta := parseLoop messages.reverse emptyMeta none
    if meta = emptyMeta then none else some meta

/-- C5: for a turn sequence `[user, assistant(tool_call id = X), tool-result
(tool_call_id = X)]` whose tool-result turn carries the invoked tool's name, the
extractor returns the summary pairing that request: `tool_call_id` is `X`,
`tool_name` and `tool_args` come from the request (the latter through the args
decode), and `tool_response_content` is the normalized content, falling back to
the raw content when normalization yields nothing. -/
theorem C5_extractor_pairing (u a t : Msg) (call : ToolCall) (x : String)
    (hu : u.role = .human)
    (ha : a.role = .ai) (hcalls : a.tool_calls = [call])
    (hid : call.id = some x) (hx : x ≠ "")
    (ht : t.role = .tool) (htid : t.tool_call_id = some x)
    (hname : t.name = call.name) :
    parse_tool_from_messages [u, a, t] = some
      { tool_response_content := some (toolContentFallback t.content),
        tool_name := some call.name,
        tool_args := _get_tool_call_args call,
        tool_call_id := some x } := by
  have htr : truthy (some x) = true := by simp [truthy, hx]
  have h1 : parseLoop [t, a, u] emptyMeta none
      = parseLoop [a, u]
          { tool_response_content := some (toolContentFallback t.content),
            tool_name := some t.name } (some x) := by
    rw [parseLoop, if_pos ⟨ht, rfl⟩, htid]
    rfl
  have h2 : scanCalls
      { tool_response_content := some (toolContentFallback t.content),
        tool_name := some t.name } (some x) [call]
      = { tool_response_content := some (toolContentFallback t.content),
          tool_name := some t.name,
          tool_args := _get_tool_call_args call,
          tool_call_id := some x } := by
    cases harg : _get_tool_call_args call with
    | some aj => simp [scanCalls, harg, hid, htr, truthy, hx]
    | none => simp [scanCalls, harg, hid, htr, truthy, hx]
  have h3 : parseLoop [a, u]
      { tool_response_content := some (toolContentFallback t.content),
        tool_name := some t.name } (some x)
      = { tool_response_content := some (toolContentFallback t.content),
          tool_name := some t.name,
          tool_args := _get_tool_call_args call,
          tool_call_id := some x } := by
    rw [parseLoop, if_neg (by simp [ha]), if_pos ha, hcalls]
    rw [show ([call] : List ToolCall).reverse = [call] from rfl, h2]
    rw [parseLoop, if_neg (by simp [hu]), if_neg (by simp [hu]),
      if_pos ⟨hu, by simp [emptyMeta]⟩]
  rw [parse_tool_from_messages, if_neg (by simp)]
  show (if parseLoop [u, a, t].reverse emptyMeta none = emptyMeta then none
    else some (parseLoop [u, a, t].reverse emptyMeta none)) = _
  rw [show ([u, a, t] : List Msg).reverse = [t, a, u] from rfl, h1, h3,
    if_neg (by simp [emptyMeta]), hname]

/-- C7: when no candidate substring of a string decodes as JSON,
`_loads_json_string` returns Python `None` and the extractor's tool branch
falls back to the original string unchanged — no `null` result and (all model
functions being total) no raised error. -/
theorem C7_garbage_fallback (s : List Char)
    (h : ∀ cnd ∈ _candidate_json_strings (_strip_code_fences (pyStrip s)),
      json_loads cnd = none) :
    _loads_json_string s = Json.null ∧ toolContentFallback (Json.str s) = Json.str s := by
  have hnull : _loads_json_string s = Json.null := by
    rw [_loads_json_string]
    by_cases hs : s = []
    · rw [if_pos hs]
    · rw [if_neg hs]
      exact tryCandidates_null h
  have hdes : _deserialize_tool_content (Json.str s) = Json.null := by
    rw [show _deserialize_tool_content (Json.str s) = _loads_json_string s from rfl, hnull]
  exact ⟨hnull, by simp [toolContentFallback, hdes]⟩

/-! ## The Session Injector (`SessionInjectingToolNode.ainvoke`, `src/core/dep.py`)

The injector's session-id validation is `str(uuid.UUID(str(session_id)))`:
`uuid.UUID` removes every `urn:` and `uuid:` occurrence, strips `{`/`}` from the
ends, removes all hyphens, requires 32 hexadecimal digits, and the canonical
printing is lower-case `8-4-4-4-12`.  (The `int(_, 16)` niceties for underscores
are outside the model.) -/

/-- Remove every (non-overlapping, left-to-right) occurrence of `pat`
(Python `str.replace(pat, "")`); structural on a fuel bounded by the input
length (each step consumes at least one character). -/
def stripSubAux (pat : List Char) : Nat → List Char → List Char
  | 0, l => l
  | _ + 1, [] => []
  | fuel + 1, c :: cs =>
      if pat ≠ [] ∧ (c :: cs).take pat.length = pat then
        stripSubAux pat fuel ((c :: cs).drop pat.length)
      else c :: stripSubAux pat fuel cs

/-- Python `str.replace(pat, "")`. -/
def stripSub (pat : List Char) (l : List Char) : List Char :=
  stripSubAux pat l.length l

/-- Python `str.strip("{}")`. -/
def stripBraces (cs : List Char) : List Char :=
  ((cs.dropWhile (fun c => c = obrace || c = cbrace)).reverse.dropWhile
    (fun c => c = obrace || c = cbrace)).reverse

/-- Hexadecimal digit test (both cases). -/
def isHexDigitCh (c : Char) : Bool :=
  ('0' ≤ c && c ≤ '9') || ('a' ≤ c && c ≤ 'f') || ('A' ≤ c && c ≤ 'F')

/-- `str(uuid.UUID(s))`: `none` models the raised `ValueError`. -/
def uuid_canon (s : String) : Option String :=
  let h1 := stripSub ("uuid:".data) (stripSub ("urn:".data) s.data)
  let hx := (stripBraces h1).filter (fun c => c ≠ '-')
  if hx.length = 32 ∧ hx.all isHexDigitCh then
    let lo := hx.map Char.toLower
    some (String.mk (lo.take 8 ++ '-' :: ((lo.drop 8).take 4)
      ++ '-' :: ((lo.drop 12).take 4) ++ '-' :: ((lo.drop 16).take 4)
      ++ '-' :: lo.drop 20))
  else none

/-- The `"session_id"` argument key. -/
def sessionKey : List Char := "session_id".data

/-- Python truthiness of a JSON-shaped value. -/
def jsonTruthy : Json → Bool
  | .null => false
  | .bool b => b
  | .num n => n ≠ 0
  | .str s => s ≠ []
  | .arr xs => xs ≠ []
  | .obj kvs => kvs ≠ []

/-- `dict(args or {})`: a falsy or absent `args` becomes the empty dict, a truthy
dict is copied, and a truthy non-dict raises (`none`). -/
def pyDictOf : Option Json → Option (List (List Char × Json))
  | none => some []
  | some j =>
      if jsonTruthy j = false then some []
      else
        match j with
        | .obj kvs => some kvs
        | _ => none

/-- Python dict assignment `d[k] = v`: replace the binding if present, else append. -/
def setKey : List (List Char × Json) → List Char → Json → List (List Char × Json)
  | [], k, v => [(k, v)]
  | (k2, v2) :: rest, k, v =>
      if k2 = k then (k, v) :: rest else (k2, v2) :: setKey rest k v

/-- The per-call injection step: tools outside the session-requiring set are
left untouched; for the others `args["session_id"]` is set to the canonical id,
overwriting any model-supplied value. -/
def inject_call (canon : String) (requiresSession : String → Bool) (call : ToolCall) :
    Option ToolCall :=
  match call.name with
  | some n =>
      if requiresSession n then
        (pyDictOf call.args).map (fun kvs =>
          { call with args := some (.obj (setKey kvs sessionKey (.str canon.data))) })
      else some call
  | none => some call

/-- The message-rewriting part of `SessionInjectingToolNode.ainvoke` (everything
before the wrapped `ToolNode` runs): skip when the configured session id is
falsy or not UUID-shaped, when there are no messages, or when the last turn has
no tool-invocation requests; otherwise rewrite the last turn's calls. -/
def inject_messages (requiresSession : String → Bool) :
    Option String → List Msg → Option (List Msg)
  | none, msgs => some msgs
  | some s, msgs =>
    if s = "" then some msgs
    else
      match uuid_canon s with
      | none => some msgs
      | some c =>
        match msgs.getLast? with
        | none => some msgs
        | some lastm =>
          if lastm.tool_calls = [] then some msgs
          else
            (lastm.tool_calls.mapM (inject_call c requiresSession)).map
              (fun tcs => msgs.dropLast ++ [{ lastm with tool_calls := tcs }])

/-! ## The dispatch graph (`create_custom_agent`, `fallback_node`,
`route_decision` of `src/core/dep.py`) and the `/dispatch` endpoint -/

/-- The conditional-edge targets out of the `agent` node. -/
inductive RouteTarget where
  | tools : RouteTarget
  | fallback : RouteTarget
deriving DecidableEq, Repr

/-- The fixed canned reply of `fallback_node`. -/
def default_msg : String :=
  "죄송합니다! 그 부분은 더 공부해올게요!\n😊 우리카드 관련 질문이 있으시면 언제든 물어보세요."

/-- The single `AIMessage` turn `fallback_node` appends. -/
def fallback_node_msg : Msg := { role := .ai, content := .str default_msg.data }

/-- `route_decision`: `tools` when the last turn carries tool-invocation
requests, else `fallback` (the graph never routes on an empty turn list). -/
def route_decision (msgs : List Msg) : RouteTarget :=
  match msgs.getLast? with
  | some m => if m.tool_calls.length > 0 then .tools else .fallback
  | none => .fallback

/-- The wrapped `ToolNode` execution: one `ToolMessage` per tool call, carrying
the backend's payload and the call's name and id.  `exec` is the external tool
backend (a black box). -/
def tool_node_results (exec : ToolCall → Json) (calls : List ToolCall) : List Msg :=
  calls.map (fun c => { role := .tool, content := exec c, tool_call_id := c.id, name := c.name })

/-- One dispatch through the compiled graph: `START → agent →
(tools | fallback) → END`.  `reply` is the model's produced assistant turn
(the model-decision capability is a black box); the tool path runs the Session
Injector and then the tool node; both paths terminate at `END`.  `none` models
an exception escaping the tool node. -/
def run_graph (requiresSession : String → Bool) (session_id : Option String)
    (exec : ToolCall → Json) (init : List Msg) (reply : Msg) : Option (List Msg) :=
  let afterAgent := init ++ [reply]
  match route_decision afterAgent with
  | .fallback => some (afterAgent ++ [fallback_node_msg])
  | .tools =>
      (inject_messages requiresSession session_id afterAgent).map
        (fun injected =>
          injected ++ tool_node_results exec
            ((injected.getLast?.map (·.tool_calls)).getD []))

/-- `pick_last_ai_text` of `src/api/routes/mcp_router.py`: the content of the
most recent `ai` turn, if any. -/
def pick_last_ai_text (messages : List Msg) : Option Json :=
  (messages.reverse.find? (fun m => m.role == Role.ai)).map (·.content)

/-- The tail of the `/dispatch` handler: `ai_text = pick_last_ai_text(...) or ""`
followed by `QueryResponse(answer=ai_text)` validation — a falsy content becomes
`""`, a truthy non-string content fails pydantic validation (`none`). -/
def dispatch_answer (messages : List Msg) : Option String :=
  match pick_last_ai_text messages with
  | none => some ""
  | some c =>
      if jsonTruthy c then
        match c with
        | .str cs => some (String.mk cs)
        | _ => none
      else some ""

/-- `QueryResponse` of `src/schemas/mcp_router.py`: the caller-facing response
model has a single field, `answer`. -/
structure QueryResponse where
  answer : String
deriving DecidableEq, Repr

/-- The `/dispatch` endpoint body: build `[SystemMessage, HumanMessage]`, invoke
the agent graph (with no config, hence no session id), and wrap the picked text.
`reply` is the model's turn; `exec` the tool backend. -/
def dispatch (requiresSession : String → Bool) (exec : ToolCall → Json)
    (sysPrompt query : String) (reply : Msg) : Option QueryResponse :=
  let messages : List Msg :=
    [{ role := .system, content := .str sysPrompt.data },
     { role := .human, content := .str query.data }]
  (run_graph requiresSession none exec messages reply).bind
    (fun final => (dispatch_answer final).map QueryResponse.mk)

/-- Modelled from the spec: the caller-facing response shape §6 describes,
`{answer: string, tool_response: optional {...}}`.  The code's `QueryResponse`
has no `tool_response` field, so its serialized form always corresponds to
`tool_response = none` here. -/
structure SpecResponse where
  answer : String
  tool_response : Option ToolMeta
deriving DecidableEq, Repr

/-- The caller-visible JSON of a code `QueryResponse`, expressed in the spec's
shape: only `answer` is ever populated. -/
def dispatch_spec_view (r : QueryResponse) : SpecResponse :=
  { answer := r.answer, tool_response := none }

/-! ## The history store (`src/core/history_store.py`) -/

/-- The module-level `_store` dict: session id to stored turn list. -/
abbrev Store := List (String × List Msg)

/-- Python dict lookup on the store. -/
def storeLookup : Store → String → Option (List Msg)
  | [], _ => none
  | (k, v) :: rest, sid => if k = sid then some v else storeLookup rest sid

/-- Python dict assignment on the store. -/
def storeSet : Store → String → List Msg → Store
  | [], sid, msgs => [(sid, msgs)]
  | (k, v) :: rest, sid, msgs =>
      if k = sid then (sid, msgs) :: rest else (k, v) :: storeSet rest sid msgs

/-- `_get_session_history`: create-on-first-reference, then return; the returned
store is the (possibly mutated) `_store`. -/
def _get_session_history (st : Store) (sid : String) : Store × List Msg :=
  match storeLookup st sid with
  | some ms => (st, ms)
  | none => (storeSet st sid [], [])

/-- The (effective, `async`) `get_history`: `[]` for a falsy session id, else the
session's message list via `_get_session_history`. -/
def get_history (st : Store) (sid : String) : Store × List Msg :=
  if sid = "" then (st, []) else _get_session_history st sid

/-- `persist_history`: replace the session's record with the given messages;
a falsy session id or empty message list is a no-op. -/
def persist_history (st : Store) (sid : String) (messages : List Msg) : Store :=
  if sid = "" ∨ messages = [] then st else storeSet st sid messages

theorem storeLookup_storeSet (st : Store) (sid : String) (msgs : List Msg) :
    storeLookup (storeSet st sid msgs) sid = some msgs := by
  induction st with
  | nil => simp [storeSet, storeLookup]
  | cons kv rest ih =>
      obtain ⟨k, v⟩ := kv
      by_cases hk : k = sid
      · simp [storeSet, storeLookup, hk]
      · simp [storeSet, storeLookup, hk, ih]

theorem storeLookup_none_not_mem {st : Store} {sid : String}
    (h : storeLookup st sid = none) : sid ∉ st.map Prod.fst := by
  induction st with
  | nil => simp
  | cons kv rest ih =>
      obtain ⟨k, v⟩ := kv
      by_cases hk : k = sid
      · rw [storeLookup, if_pos hk] at h
        exact absurd h (by simp)
      · rw [storeLookup, if_neg hk] at h
        simp [hk, ih h]
        exact fun he => hk he.symm

theorem mem_keys_storeSet (st : Store) (sid : String) (msgs : List Msg) :
    sid ∈ (storeSet st sid msgs).map Prod.fst := by
  induction st with
  | nil => simp [storeSet]
  | cons kv rest ih =>
      obtain ⟨k, v⟩ := kv
      by_cases hk : k = sid
      · simp [storeSet, hk]
      · simp [storeSet, hk]
        right
        simpa using ih

/-- C8: a replace with a non-empty session id and non-empty turn list stores
exactly that list — a subsequent load returns it in full and leaves the store
untouched, whatever was stored before (replacement, never merge); a replace with
an empty session id or an empty turn list is a no-op on the store. -/
theorem C8_history_replace (st : Store) (sid : String) (msgs other : List Msg)
    (hsid : sid ≠ "") (hmsgs : msgs ≠ []) :
    get_history (persist_history st sid msgs) sid = (persist_history st sid msgs, msgs) ∧
    persist_history st "" other = st ∧
    persist_history st sid [] = st := by
  refine ⟨?_, by simp [persist_history], by simp [persist_history]⟩
  have hp : persist_history st sid msgs = storeSet st sid msgs := by
    rw [persist_history, if_neg (by simp [hsid, hmsgs])]
  rw [hp, get_history, if_neg hsid, _get_session_history, storeLookup_storeSet]

/-- C10: loading a non-empty, previously-unseen session id returns the empty
list but also inserts a new empty record: the store's key set gains the id
rather than staying unchanged. -/
theorem C10_load_creates (st : Store) (sid : String)
    (hsid : sid ≠ "") (hun : storeLookup st sid = none) :
    get_history st sid = (storeSet st sid [], []) ∧
    storeLookup (storeSet st sid []) sid = some [] ∧
    sid ∉ st.map Prod.fst ∧ sid ∈ (storeSet st sid []).map Prod.fst := by
  refine ⟨?_, storeLookup_storeSet st sid [], storeLookup_none_not_mem hun,
    mem_keys_storeSet st sid []⟩
  rw [get_history, if_neg hsid, _get_session_history, hun]

/-! ## Graph claims -/

theorem dispatch_answer_str {msgs : List Msg} {cs : List Char}
    (hp : pick_last_ai_text msgs = some (Json.str cs)) (hne : cs ≠ []) :
    dispatch_answer msgs = some (String.mk cs) := by
  have e1 : dispatch_answer msgs =
      if jsonTruthy (Json.str cs) = true then some (String.mk cs) else some "" := by
    rw [dispatch_answer, hp]
  rw [e1, if_pos (by simp [jsonTruthy, hne])]

/-- C1: when the model's produced assistant turn carries no tool-invocation
requests, the graph routes to the fallback node, the run appends exactly the
canned turn, and the answer the caller receives is the fixed canned string —
never the model's free-form reply. -/
theorem C1_fallback_canned (requiresSession : String → Bool) (session_id : Option String)
    (exec : ToolCall → Json) (init : List Msg) (reply : Msg)
    (h : reply.tool_calls = []) :
    route_decision (init ++ [reply]) = .fallback ∧
    run_graph requiresSession session_id exec init reply
      = some ((init ++ [reply]) ++ [fallback_node_msg]) ∧
    dispatch_answer ((init ++ [reply]) ++ [fallback_node_msg]) = some default_msg := by
  have hroute : route_decision (init ++ [reply]) = .fallback := by
    rw [route_decision, List.getLast?_concat]
    show (if reply.tool_calls.length > 0 then RouteTarget.tools else RouteTarget.fallback)
      = RouteTarget.fallback
    rw [h]
    simp
  refine ⟨hroute, ?_, ?_⟩
  · simp only [run_graph, hroute]
  · have hpick : pick_last_ai_text ((init ++ [reply]) ++ [fallback_node_msg])
        = some (Json.str default_msg.data) := by
      rw [pick_last_ai_text, List.reverse_append]
      rw [show (([fallback_node_msg] : List Msg).reverse ++ (init ++ [reply]).reverse)
        = fallback_node_msg :: (init ++ [reply]).reverse from rfl]
      rw [List.find?_cons_of_pos _ (by rfl)]
      rfl
    rw [dispatch_answer_str hpick (by decide)]

theorem forall2_self {α : Type} {R : α → α → Prop} (hR : ∀ a, R a a) :
    ∀ l : List α, List.Forall₂ R l l
  | [] => .nil
  | a :: t => .cons (hR a) (forall2_self hR t)

theorem mapM_option_forall2 {α β : Type} (f : α → Option β) :
    ∀ {l : List α} {l2 : List β}, l.mapM f = some l2 →
      List.Forall₂ (fun a b => f a = some b) l l2 := by
  intro l
  induction l with
  | nil =>
      intro l2 h
      simp only [List.mapM_nil, pure, Option.some.injEq] at h
      subst h
      exact .nil
  | cons a t ih =>
      intro l2 h
      rw [List.mapM_cons] at h
      cases hfa : f a with
      | none => rw [hfa] at h; simp at h
      | some b =>
          rw [hfa] at h
          cases hmt : t.mapM f with
          | none => rw [hmt] at h; simp at h
          | some bs =>
              rw [hmt] at h
              simp at h
              subst h
              exact .cons hfa (ih hmt)

/-- The per-call injection step preserves `id` and `name`, and leaves a call for
a tool outside the session-requiring set entirely unchanged. -/
theorem inject_call_preserves {canon : String} {requiresSession : String → Bool}
    {call out : ToolCall} (h : inject_call canon requiresSession call = some out) :
    out.id = call.id ∧ out.name = call.name ∧
      ((∀ n, call.name = some n → requiresSession n = false) → out = call) := by
  obtain ⟨cid, cname, cargs⟩ := call
  cases cname with
  | none =>
      obtain rfl := Option.some.inj h
      exact ⟨rfl, rfl, fun _ => rfl⟩
  | some n =>
      by_cases hreq : requiresSession n
      · have h3 : inject_call canon requiresSession ⟨cid, some n, cargs⟩
            = (pyDictOf cargs).map (fun kvs =>
                (⟨cid, some n, some (.obj (setKey kvs sessionKey (.str canon.data)))⟩ :
                  ToolCall)) := by
          simp [inject_call, hreq]
        rw [h3] at h
        obtain ⟨kvs, hkvs, hout⟩ := Option.map_eq_some'.mp h
        subst hout
        refine ⟨rfl, rfl, fun hall => ?_⟩
        rw [hall n rfl] at hreq
        exact absurd hreq (by simp)
      · have h3 : inject_call canon requiresSession ⟨cid, some n, cargs⟩
            = some ⟨cid, some n, cargs⟩ := by
          simp [inject_call, hreq]
        rw [h3] at h
        obtain rfl := Option.some.inj h
        exact ⟨rfl, rfl, fun _ => rfl⟩

theorem inject_messages_some_eq (requiresSession : String → Bool) {s c : String}
    (msgs : List Msg) (lastm : Msg) (hs : s ≠ "") (hc : uuid_canon s = some c)
    (hl : msgs.getLast? = some lastm) (htc : lastm.tool_calls ≠ []) :
    inject_messages requiresSession (some s) msgs
      = (lastm.tool_calls.mapM (inject_call c requiresSession)).map
          (fun tcs => msgs.dropLast ++ [{ lastm with tool_calls := tcs }]) := by
  have e1 : inject_messages requiresSession (some s) msgs =
      match msgs.getLast? with
      | none => some msgs
      | some lastm2 =>
        if lastm2.tool_calls = [] then some msgs
        else
          (lastm2.tool_calls.mapM (inject_call c requiresSession)).map
            (fun tcs => msgs.dropLast ++ [{ lastm2 with tool_calls := tcs }]) := by
    rw [inject_messages, if_neg hs, hc]
  have e2 : inject_messages requiresSession (some s) msgs =
      if lastm.tool_calls = [] then some msgs
      else
        (lastm.tool_calls.mapM (inject_call c requiresSession)).map
          (fun tcs => msgs.dropLast ++ [{ lastm with tool_calls := tcs }]) := by
    rw [e1, hl]
  rw [e2, if_neg htc]

theorem inject_messages_skip (requiresSession : String → Bool) {session_id : Option String}
    {msgs : List Msg}
    (h : (∀ s, session_id = some s → s = "" ∨ uuid_canon s = none) ∨
      msgs.getLast? = none ∨ (∀ lastm, msgs.getLast? = some lastm → lastm.tool_calls = [])) :
    inject_messages requiresSession session_id msgs = some msgs := by
  cases session_id with
  | none => rfl
  | some s =>
      by_cases hs : s = ""
      · rw [inject_messages, if_pos hs]
      · cases hc : uuid_canon s with
        | none =>
            have e1 : inject_messages requiresSession (some s) msgs = some msgs := by
              rw [inject_messages, if_neg hs, hc]
            exact e1
        | some c =>
            have hrest : msgs.getLast? = none ∨
                (∀ lastm, msgs.getLast? = some lastm → lastm.tool_calls = []) := by
              rcases h with h1 | h2 | h3
              · rcases h1 s rfl with h4 | h4
                · exact absurd h4 hs
                · rw [h4] at hc; cases hc
              · exact Or.inl h2
              · exact Or.inr h3
            have e1 : inject_messages requiresSession (some s) msgs =
                match msgs.getLast? with
                | none => some msgs
                | some lastm2 =>
                  if lastm2.tool_calls = [] then some msgs
                  else
                    (lastm2.tool_calls.mapM (inject_call c requiresSession)).map
                      (fun tcs => msgs.dropLast ++ [{ lastm2 with tool_calls := tcs }]) := by
              rw [inject_messages, if_neg hs, hc]
            cases hl : msgs.getLast? with
            | none => rw [e1, hl]
            | some lastm =>
                rcases hrest with h2 | h3
                · rw [hl] at h2; cases h2
                · have e2 : inject_messages requiresSession (some s) msgs =
                      if lastm.tool_calls = [] then some msgs
                      else
                        (lastm.tool_calls.mapM (inject_call c requiresSession)).map
                          (fun tcs => msgs.dropLast ++ [{ lastm with tool_calls := tcs }]) := by
                    rw [e1, hl]
                  rw [e2, if_pos (h3 lastm hl)]

theorem inject_messages_cases {requiresSession : String → Bool} {session_id : Option String}
    {msgs out : List Msg} (h : inject_messages requiresSession session_id msgs = some out) :
    out = msgs ∨
    ∃ c lastm tcs, msgs.getLast? = some lastm ∧
      lastm.tool_calls.mapM (inject_call c requiresSession) = some tcs ∧
      out = msgs.dropLast ++ [{ lastm with tool_calls := tcs }] := by
  cases session_id with
  | none =>
      left
      exact (Option.some.inj h).symm
  | some s =>
      by_cases hs : s = ""
      · left
        rw [inject_messages, if_pos hs] at h
        exact (Option.some.inj h).symm
      · cases hc : uuid_canon s with
        | none =>
            left
            rw [inject_messages_skip requiresSession (Or.inl (fun s2 hs2 => by
              obtain rfl := Option.some.inj hs2
              exact Or.inr hc))] at h
            exact (Option.some.inj h).symm
        | some c =>
            cases hl : msgs.getLast? with
            | none =>
                left
                rw [inject_messages_skip requiresSession (Or.inr (Or.inl hl))] at h
                exact (Option.some.inj h).symm
            | some lastm =>
                by_cases htc : lastm.tool_calls = []
                · left
                  rw [inject_messages_skip requiresSession (Or.inr (Or.inr (fun l2 hl2 => by
                    rw [hl] at hl2
                    obtain rfl := Option.some.inj hl2
                    exact htc)))] at h
                  exact (Option.some.inj h).symm
                · right
                  rw [inject_messages_some_eq requiresSession msgs lastm hs hc hl htc] at h
                  obtain ⟨tcs, htcs, hout⟩ := Option.map_eq_some'.mp h
                  exact ⟨c, lastm, tcs, rfl, htcs, hout.symm⟩

theorem find?_append_none {p : Msg → Bool} {l1 : List Msg} (l2 : List Msg)
    (h : l1.find? p = none) : (l1 ++ l2).find? p = l2.find? p := by
  induction l1 with
  | nil => simp
  | cons a t ih =>
      rw [List.find?_cons] at h
      cases hp : p a with
      | true => rw [hp] at h; cases h
      | false =>
          rw [hp] at h
          rw [List.cons_append, List.find?_cons, hp]
          exact ih h

/-- C9: on the tool path the graph routes to `tools`, appends only the tool-result
turns after the assistant turn that issued the calls (the graph terminates right
after the tool node), and the answer picked for the caller is that assistant
turn's content — never a tool-result turn's content. -/
theorem C9_tool_path (requiresSession : String → Bool) (session_id : Option String)
    (exec : ToolCall → Json) (init : List Msg) (reply : Msg) (final : List Msg)
    (hrole : reply.role = .ai) (hcalls : reply.tool_calls ≠ [])
    (hrun : run_graph requiresSession session_id exec init reply = some final) :
    route_decision (init ++ [reply]) = .tools ∧
    pick_last_ai_text final = some reply.content ∧
    ∀ m ∈ final.drop (init.length + 1), m.role = .tool := by
  have hroute : route_decision (init ++ [reply]) = .tools := by
    rw [route_decision, List.getLast?_concat]
    show (if reply.tool_calls.length > 0 then RouteTarget.tools else RouteTarget.fallback) = _
    rw [if_pos (by
      cases hcs : reply.tool_calls with
      | nil => exact absurd hcs hcalls
      | cons a t => simp [hcs])]
  have hrun2 : (inject_messages requiresSession session_id (init ++ [reply])).map
      (fun injected => injected ++ tool_node_results exec
        ((injected.getLast?.map (·.tool_calls)).getD [])) = some final := by
    have e1 : run_graph requiresSession session_id exec init reply
        = (inject_messages requiresSession session_id (init ++ [reply])).map
            (fun injected => injected ++ tool_node_results exec
              ((injected.getLast?.map (·.tool_calls)).getD [])) := by
      simp only [run_graph, hroute]
    rw [← e1]
    exact hrun
  obtain ⟨injected, hinj, hfin⟩ := Option.map_eq_some'.mp hrun2
  obtain ⟨tcs, hish⟩ : ∃ tcs, injected = init ++ [{ reply with tool_calls := tcs }] := by
    rcases inject_messages_cases hinj with hsk | ⟨c, lastm, tcs, hl, htcs, hout⟩
    · exact ⟨reply.tool_calls, hsk⟩
    · rw [List.getLast?_concat] at hl
      obtain rfl := Option.some.inj hl
      rw [List.dropLast_concat] at hout
      exact ⟨tcs, hout⟩
  have hfin2 : final = (init ++ [{ reply with tool_calls := tcs }])
      ++ tool_node_results exec tcs := by
    rw [← hfin, hish, List.getLast?_concat]
    rfl
  have htool : ∀ m ∈ tool_node_results exec tcs, m.role = .tool := by
    intro m hm
    rw [tool_node_results, List.mem_map] at hm
    obtain ⟨cl, _, rfl⟩ := hm
    rfl
  refine ⟨hroute, ?_, ?_⟩
  · rw [hfin2, pick_last_ai_text, List.reverse_append]
    rw [find?_append_none _ (List.find?_eq_none.mpr (fun m hm => by
      rw [htool m (List.mem_reverse.mp hm)]
      decide))]
    rw [List.reverse_append]
    rw [show (([{ reply with tool_calls := tcs }] : List Msg).reverse ++ init.reverse)
      = { reply with tool_calls := tcs } :: init.reverse from rfl]
    rw [List.find?_cons_of_pos _ (by
      show (({ reply with tool_calls := tcs } : Msg).role == Role.ai) = true
      rw [show ({ reply with tool_calls := tcs } : Msg).role = reply.role from rfl, hrole]
      rfl)]
    rfl
  · intro m hm
    rw [hfin2] at hm
    rw [show init.length + 1 = (init ++ [{ reply with tool_calls := tcs }]).length from by
      simp] at hm
    rw [List.drop_left] at hm
    exact htool m hm

theorem lookupKey_setKey (kvs : List (List Char × Json)) (k : List Char) (v : Json) :
    lookupKey (setKey kvs k v) k = some v := by
  induction kvs with
  | nil => simp [setKey, lookupKey]
  | cons kv rest ih =>
      obtain ⟨k2, v2⟩ := kv
      by_cases hk : k2 = k
      · simp [setKey, lookupKey, hk]
      · simp [setKey, lookupKey, hk, ih]

theorem inject_call_requires (canon : String) (requiresSession : String → Bool)
    (call : ToolCall) (n : String) (hn : call.name = some n)
    (hreq : requiresSession n = true)
    (kvs : List (List Char × Json)) (hkvs : pyDictOf call.args = some kvs) :
    inject_call canon requiresSession call =
      some { call with args := some (.obj (setKey kvs sessionKey (.str canon.data))) } := by
  obtain ⟨cid, cname, cargs⟩ := call
  simp only at hn hkvs
  subst hn
  rw [inject_call]
  simp only
  rw [if_pos hreq, hkvs, Option.map_some']

theorem forall2_get {α β : Type} {R : α → β → Prop} :
    ∀ {l1 : List α} {l2 : List β}, List.Forall₂ R l1 l2 →
      ∀ i (h1 : i < l1.length) (h2 : i < l2.length), R (l1.get ⟨i, h1⟩) (l2.get ⟨i, h2⟩) := by
  intro l1 l2 h
  induction h with
  | nil => intro i h1 _; exact absurd h1 (by simp)
  | cons hr _ ih =>
      intro i h1 h2
      cases i with
      | zero => exact hr
      | succ j => exact ih j (by simpa using h1) (by simpa using h2)

/-- C4 (frame): a run of the Session Injector — whatever the session id — keeps
the turn count, leaves every turn but the last byte-for-byte unchanged, preserves
every turn's role/content/ids/names, preserves every request's `id` and `name`,
and leaves a request whose tool is outside the session-requiring set entirely
unchanged (`args` included). -/
theorem C4_injection_frame (requiresSession : String → Bool) (session_id : Option String)
    (msgs out : List Msg)
    (h : inject_messages requiresSession session_id msgs = some out) :
    out.length = msgs.length ∧
    (∀ i, i + 1 < msgs.length → out[i]? = msgs[i]?) ∧
    List.Forall₂ (fun m m2 : Msg =>
      m2.role = m.role ∧ m2.content = m.content ∧ m2.tool_call_id = m.tool_call_id ∧
      m2.name = m.name ∧
      List.Forall₂ (fun c c2 : ToolCall =>
        c2.id = c.id ∧ c2.name = c.name ∧
        ((∀ n, c.name = some n → requiresSession n = false) → c2 = c))
        m.tool_calls m2.tool_calls) msgs out := by
  have hcrefl : ∀ cl : ToolCall,
      cl.id = cl.id ∧ cl.name = cl.name ∧
        ((∀ n, cl.name = some n → requiresSession n = false) → cl = cl) :=
    fun cl => ⟨rfl, rfl, fun _ => rfl⟩
  have hmrefl : ∀ m : Msg,
      m.role = m.role ∧ m.content = m.content ∧ m.tool_call_id = m.tool_call_id ∧
        m.name = m.name ∧
        List.Forall₂ (fun c c2 : ToolCall =>
          c2.id = c.id ∧ c2.name = c.name ∧
          ((∀ n, c.name = some n → requiresSession n = false) → c2 = c))
          m.tool_calls m.tool_calls :=
    fun m => ⟨rfl, rfl, rfl, rfl, forall2_self hcrefl m.tool_calls⟩
  rcases inject_messages_cases h with heq | ⟨c, lastm, tcs, hl, htcs, heq⟩
  · subst heq
    exact ⟨rfl, fun i _ => rfl, forall2_self hmrefl _⟩
  · subst heq
    have hne : msgs ≠ [] := by
      intro he
      rw [he] at hl
      cases hl
    have hlast : lastm = msgs.getLast hne := by
      rw [List.getLast?_eq_getLast msgs hne] at hl
      exact (Option.some.inj hl).symm
    have hsplit : msgs.dropLast ++ [lastm] = msgs := by
      rw [hlast]
      exact List.dropLast_append_getLast hne
    have hlen : msgs.dropLast.length + 1 = msgs.length := by
      conv_rhs => rw [← hsplit]
      simp
    refine ⟨?_, ?_, ?_⟩
    · conv_rhs => rw [← hsplit]
      simp
    · intro i hi
      have hi2 : i < msgs.dropLast.length := by omega
      rw [List.getElem?_append_left hi2]
      conv_rhs => rw [← hsplit]
      rw [List.getElem?_append_left hi2]
    · conv_lhs => rw [← hsplit]
      refine List.rel_append (forall2_self hmrefl msgs.dropLast) ?_
      refine List.Forall₂.cons ⟨rfl, rfl, rfl, rfl, ?_⟩ List.Forall₂.nil
      exact (mapM_option_forall2 _ htcs).imp (fun _ _ hab => inject_call_preserves hab)

/-- C3 (amended): for every request in the last turn whose tool is in the
session-requiring set, a Session Injector run with a session id `s` accepted by
the UUID validation sets the request's `args["session_id"]` to the canonical
form of `s` (lower-case hyphenated UUID printing) — unconditionally overwriting
any model-supplied value.  The stored value is `s` itself exactly when `s` is
already in canonical form. -/
theorem C3_injection_overwrite (requiresSession : String → Bool)
    (s c : String) (init : List Msg) (lastm : Msg) (out : List Msg)
    (hcanon : uuid_canon s = some c) (hne : lastm.tool_calls ≠ [])
    (hinj : inject_messages requiresSession (some s) (init ++ [lastm]) = some out)
    (i : Nat) (hi : i < lastm.tool_calls.length)
    (n : String) (hn : (lastm.tool_calls.get ⟨i, hi⟩).name = some n)
    (hreq : requiresSession n = true)
    (kvs : List (List Char × Json))
    (hkvs : pyDictOf (lastm.tool_calls.get ⟨i, hi⟩).args = some kvs) :
    ∃ (tcs : List ToolCall) (hi2 : i < tcs.length),
      out = init ++ [{ lastm with tool_calls := tcs }] ∧
      (tcs.get ⟨i, hi2⟩).args = some (.obj (setKey kvs sessionKey (.str c.data))) ∧
      lookupKey (setKey kvs sessionKey (.str c.data)) sessionKey = some (.str c.data) := by
  have hs : s ≠ "" := by
    intro he
    subst he
    rw [show uuid_canon "" = none from by decide] at hcanon
    cases hcanon
  rw [inject_messages_some_eq requiresSession (init ++ [lastm]) lastm hs hcanon
    (List.getLast?_concat init) hne] at hinj
  obtain ⟨tcs, htcs, hout⟩ := Option.map_eq_some'.mp hinj
  have hf2 := mapM_option_forall2 _ htcs
  have hlen : lastm.tool_calls.length = tcs.length := hf2.length_eq
  have hi2 : i < tcs.length := by omega
  refine ⟨tcs, hi2, ?_, ?_, lookupKey_setKey kvs sessionKey (.str c.data)⟩
  · rw [← hout, List.dropLast_concat]
  · have hrel := forall2_get hf2 i hi hi2
    rw [inject_call_requires c requiresSession _ n hn hreq kvs hkvs] at hrel
    have h5 := Option.some.inj hrel
    rw [← h5]

/-- C3 (counterexample to the literal reading): run with the valid — but
upper-case — session id `"00000000-0000-4000-8000-00000000000A"`, the injector
stores the canonical lower-case rendering in `args["session_id"]`, a value
different from the supplied id `s`. -/
theorem C3_counterexample :
    inject_messages (fun n => n == "get_card_recommendation")
      (some "00000000-0000-4000-8000-00000000000A")
      [{ role := .ai,
         tool_calls := [{ id := some "call-1", name := some "get_card_recommendation",
                          args := some (Json.obj []) }] }]
    = some
      [{ role := .ai,
         tool_calls := [{ id := some "call-1", name := some "get_card_recommendation",
                          args := some (Json.obj [(sessionKey,
                            Json.str "00000000-0000-4000-8000-00000000000a".data)]) }] }]
    ∧ ("00000000-0000-4000-8000-00000000000a" : String)
        ≠ "00000000-0000-4000-8000-00000000000A" := by
  constructor
  · decide
  · decide

/-- C6: normalizer round trip — for every JSON value `v`, the Result Normalizer
applied to the JSON encoding of `v` yields `v` again, both through
`_loads_json_string` directly and through `_deserialize_tool_content` on a
string-typed content. -/
theorem C6_normalizer_roundtrip (v : Json) :
    _loads_json_string (json_encode v) = v ∧
    _deserialize_tool_content (Json.str (json_encode v)) = v :=
  ⟨loads_json_string_encode v, loads_json_string_encode v⟩

/-- C2 (amended): every completed dispatch yields a response whose `answer`
field is a string — `""` when the transcript holds no usable assistant text —
but the code's `QueryResponse` carries no `tool_response` field at all, so in
the spec's response shape `tool_response` is `none` on every dispatch. -/
theorem C2_response_shape (requiresSession : String → Bool) (exec : ToolCall → Json)
    (sysPrompt query : String) (reply : Msg) (r : QueryResponse)
    (h : dispatch requiresSession exec sysPrompt query reply = some r) :
    (dispatch_spec_view r).tool_response = none ∧
    ∃ final,
      run_graph requiresSession none exec
        [{ role := .system, content := Json.str sysPrompt.data },
         { role := .human, content := Json.str query.data }] reply = some final ∧
      dispatch_answer final = some r.answer ∧
      (pick_last_ai_text final = none → r.answer = "") := by
  refine ⟨rfl, ?_⟩
  rw [dispatch] at h
  obtain ⟨final, hrun, hans⟩ := Option.bind_eq_some.mp h
  obtain ⟨ans, hda, hr⟩ := Option.map_eq_some'.mp hans
  refine ⟨final, hrun, ?_, ?_⟩
  · rw [hda, ← hr]
  · intro hnone
    rw [dispatch_answer, hnone] at hda
    rw [← hr, ← Option.some.inj hda]

/-- C2 (counterexample to the spec's response shape): a dispatch in which a tool
runs — the final transcript ends in a tool turn and the extractor produces a
full summary — still returns a response carrying only `answer`: in the spec's
shape its `tool_response` is `none`, never the populated object §6 describes. -/
theorem C2_counterexample :
    dispatch (fun _ => (false : Bool)) (fun _ => Json.str "ok".data) "sys" "hello"
      { role := .ai, content := Json.str "using tool".data,
        tool_calls := [{ id := some "call-1", name := some "get_card_recommendation",
                         args := some (Json.obj []) }] }
      = some { answer := "using tool" } ∧
    run_graph (fun _ => (false : Bool)) none (fun _ => Json.str "ok".data)
      [{ role := .system, content := Json.str "sys".data },
       { role := .human, content := Json.str "hello".data }]
      { role := .ai, content := Json.str "using tool".data,
        tool_calls := [{ id := some "call-1", name := some "get_card_recommendation",
                         args := some (Json.obj []) }] }
      = some
        [{ role := .system, content := Json.str "sys".data },
         { role := .human, content := Json.str "hello".data },
         { role := .ai, content := Json.str "using tool".data,
           tool_calls := [{ id := some "call-1", name := some "get_card_recommendation",
                            args := some (Json.obj []) }] },
         { role := .tool, content := Json.str "ok".data,
           tool_call_id := some "call-1", name := some "get_card_recommendation" }] ∧
    parse_tool_from_messages
        [{ role := .system, content := Json.str "sys".data },
         { role := .human, content := Json.str "hello".data },
         { role := .ai, content := Json.str "using tool".data,
           tool_calls := [{ id := some "call-1", name := some "get_card_recommendation",
                            args := some (Json.obj []) }] },
         { role := .tool, content := Json.str "ok".data,
           tool_call_id := some "call-1", name := some "get_card_recommendation" }]
      = some
        { tool_response_content := some (Json.str "ok".data),
          tool_name := some (some "get_card_recommendation"),
          tool_args := some (Json.obj []),
          tool_call_id := some "call-1" } ∧
    dispatch_spec_view { answer := "using tool" }
      = { answer := "using tool", tool_response := none } := by
  refine ⟨?_, ?_, ?_, rfl⟩
  · decide
  · decide
  · decide

/-! ## Concrete instantiations of the hypothesis-bearing claim theorems -/

theorem C1_fallback_canned_witness :
    route_decision ([] ++ [({ role := Role.ai, content := Json.str "hi".data } : Msg)])
      = .fallback ∧
    run_graph (fun _ => (false : Bool)) none (fun _ => Json.null) []
        { role := Role.ai, content := Json.str "hi".data }
      = some (([] ++ [({ role := Role.ai, content := Json.str "hi".data } : Msg)])
          ++ [fallback_node_msg]) ∧
    dispatch_answer (([] ++ [({ role := Role.ai, content := Json.str "hi".data } : Msg)])
        ++ [fallback_node_msg]) = some default_msg :=
  C1_fallback_canned (fun _ => (false : Bool)) none (fun _ => Json.null) []
    { role := Role.ai, content := Json.str "hi".data } rfl

theorem C2_response_shape_witness :
    (dispatch_spec_view { answer := default_msg }).tool_response = none ∧
    ∃ final,
      run_graph (fun _ => (false : Bool)) none (fun _ => Json.null)
        [{ role := .system, content := Json.str "s".data },
         { role := .human, content := Json.str "q".data }]
        { role := Role.ai, content := Json.str "hey".data } = some final ∧
      dispatch_answer final = some default_msg ∧
      (pick_last_ai_text final = none → default_msg = "") :=
  C2_response_shape (fun _ => (false : Bool)) (fun _ => Json.null) "s" "q"
    { role := Role.ai, content := Json.str "hey".data } { answer := default_msg } (by decide)

theorem C3_injection_overwrite_witness :
    ∃ (tcs : List ToolCall) (hi2 : 0 < tcs.length),
      [({ role := Role.ai, tool_calls := [{ id := some "call-1", name := some "get_card_recommendation", args := some (Json.obj [(sessionKey, Json.str "00000000-0000-4000-8000-00000000000a".data)]) }] } : Msg)]
        = [] ++ [({ role := Role.ai, tool_calls := tcs } : Msg)] ∧
      (tcs.get ⟨0, hi2⟩).args = some (Json.obj (setKey [] sessionKey
        (Json.str "00000000-0000-4000-8000-00000000000a".data))) ∧
      lookupKey (setKey [] sessionKey (Json.str "00000000-0000-4000-8000-00000000000a".data))
        sessionKey = some (Json.str "00000000-0000-4000-8000-00000000000a".data) :=
  C3_injection_overwrite (fun n => n == "get_card_recommendation")
    "00000000-0000-4000-8000-00000000000A" "00000000-0000-4000-8000-00000000000a"
    []
    { role := Role.ai,
      tool_calls := [{ id := some "call-1", name := some "get_card_recommendation",
                       args := some (Json.obj []) }] }
    [{ role := Role.ai,
       tool_calls := [{ id := some "call-1", name := some "get_card_recommendation",
                        args := some (Json.obj [(sessionKey,
                          Json.str "00000000-0000-4000-8000-00000000000a".data)]) }] }]
    (by decide) (by decide) (by decide) 0 (by decide) "get_card_recommendation"
    (by decide) (by decide) [] (by decide)

theorem C4_injection_frame_witness :
    [({ role := Role.ai, tool_calls := [{ id := some "call-9", name := some "other_tool", args := some (Json.obj []) }] } : Msg)].length
      = [({ role := Role.ai, tool_calls := [{ id := some "call-9", name := some "other_tool", args := some (Json.obj []) }] } : Msg)].length ∧
    (∀ i, i + 1 < [({ role := Role.ai, tool_calls := [{ id := some "call-9", name := some "other_tool", args := some (Json.obj []) }] } : Msg)].length →
      [({ role := Role.ai, tool_calls := [{ id := some "call-9", name := some "other_tool", args := some (Json.obj []) }] } : Msg)][i]?
        = [({ role := Role.ai, tool_calls := [{ id := some "call-9", name := some "other_tool", args := some (Json.obj []) }] } : Msg)][i]?) ∧
    List.Forall₂ (fun m m2 : Msg =>
      m2.role = m.role ∧ m2.content = m.content ∧ m2.tool_call_id = m.tool_call_id ∧
      m2.name = m.name ∧
      List.Forall₂ (fun c c2 : ToolCall =>
        c2.id = c.id ∧ c2.name = c.name ∧
        ((∀ n, c.name = some n → (fun _ => (false : Bool)) n = false) → c2 = c))
        m.tool_calls m2.tool_calls)
      [({ role := Role.ai, tool_calls := [{ id := some "call-9", name := some "other_tool", args := some (Json.obj []) }] } : Msg)]
      [({ role := Role.ai, tool_calls := [{ id := some "call-9", name := some "other_tool", args := some (Json.obj []) }] } : Msg)] :=
  C4_injection_frame (fun _ => (false : Bool)) none
    [{ role := Role.ai, tool_calls := [{ id := some "call-9", name := some "other_tool", args := some (Json.obj []) }] }]
    [{ role := Role.ai, tool_calls := [{ id := some "call-9", name := some "other_tool", args := some (Json.obj []) }] }]
    (by decide)

theorem C5_extractor_pairing_witness :
    parse_tool_from_messages
        [{ role := Role.human, content := Json.str "q".data },
         { role := Role.ai, content := Json.str "calling".data,
           tool_calls := [{ id := some "X1", name := some "get_card_recommendation",
                            args := some (Json.obj []) }] },
         { role := Role.tool, content := Json.str "ok".data,
           tool_call_id := some "X1", name := some "get_card_recommendation" }]
      = some
        { tool_response_content := some (toolContentFallback (Json.str "ok".data)),
          tool_name := some (some "get_card_recommendation"),
          tool_args := _get_tool_call_args
            { id := some "X1", name := some "get_card_recommendation",
              args := some (Json.obj []) },
          tool_call_id := some "X1" } :=
  C5_extractor_pairing
    { role := Role.human, content := Json.str "q".data }
    { role := Role.ai, content := Json.str "calling".data,
      tool_calls := [{ id := some "X1", name := some "get_card_recommendation",
                       args := some (Json.obj []) }] }
    { role := Role.tool, content := Json.str "ok".data,
      tool_call_id := some "X1", name := some "get_card_recommendation" }
    { id := some "X1", name := some "get_card_recommendation", args := some (Json.obj []) }
    "X1" rfl rfl rfl rfl (by decide) rfl rfl rfl

theorem C7_garbage_fallback_witness :
    _loads_json_string "not json at all".data = Json.null ∧
    toolContentFallback (Json.str "not json at all".data)
      = Json.str "not json at all".data :=
  C7_garbage_fallback "not json at all".data (by decide)

theorem C8_history_replace_witness :
    get_history (persist_history [] "s1" [{ role := Role.human }]) "s1"
      = (persist_history [] "s1" [{ role := Role.human }], [{ role := Role.human }]) ∧
    persist_history [] "" [] = [] ∧
    persist_history [] "s1" [] = [] :=
  C8_history_replace [] "s1" [{ role := Role.human }] [] (by decide) (by decide)

theorem C9_tool_path_witness :
    route_decision
        ([({ role := Role.human, content := Json.str "q".data } : Msg)]
          ++ [({ role := Role.ai, content := Json.str "calling".data, tool_calls := [{ id := some "call-1", name := some "get_card_recommendation", args := some (Json.obj []) }] } : Msg)]) = .tools ∧
    pick_last_ai_text
        [{ role := Role.human, content := Json.str "q".data },
         { role := Role.ai, content := Json.str "calling".data, tool_calls := [{ id := some "call-1", name := some "get_card_recommendation", args := some (Json.obj []) }] },
         { role := Role.tool, content := Json.str "ok".data, tool_call_id := some "call-1", name := some "get_card_recommendation" }]
      = some (Json.str "calling".data) ∧
    ∀ m ∈ ([{ role := Role.human, content := Json.str "q".data },
            { role := Role.ai, content := Json.str "calling".data, tool_calls := [{ id := some "call-1", name := some "get_card_recommendation", args := some (Json.obj []) }] },
            { role := Role.tool, content := Json.str "ok".data, tool_call_id := some "call-1", name := some "get_card_recommendation" }]
          : List Msg).drop
        ([({ role := Role.human, content := Json.str "q".data } : Msg)].length + 1),
      m.role = .tool :=
  C9_tool_path (fun _ => (false : Bool)) none (fun _ => Json.str "ok".data)
    [{ role := Role.human, content := Json.str "q".data }]
    { role := Role.ai, content := Json.str "calling".data, tool_calls := [{ id := some "call-1", name := some "get_card_recommendation", args := some (Json.obj []) }] }
    [{ role := Role.human, content := Json.str "q".data },
     { role := Role.ai, content := Json.str "calling".data, tool_calls := [{ id := some "call-1", name := some "get_card_recommendation", args := some (Json.obj []) }] },
     { role := Role.tool, content := Json.str "ok".data, tool_call_id := some "call-1", name := some "get_card_recommendation" }]
    rfl (by decide) (by decide)

theorem C10_load_creates_witness :
    get_history [("other", ([] : List Msg))] "s1"
      = (storeSet [("other", ([] : List Msg))] "s1" [], []) ∧
    storeLookup (storeSet [("other", ([] : List Msg))] "s1" []) "s1" = some [] ∧
    "s1" ∉ ([("other", ([] : List Msg))] : Store).map Prod.fst ∧
    "s1" ∈ (storeSet [("other", ([] : List Msg))] "s1" []).map Prod.fst :=
  C10_load_creates [("other", [])] "s1" (by decide) (by decide)

end LLMServer
